import Mathlib

/-!
Verification of the PEP8 static code analyzer (`code_analyzer.py`).

The development shallowly embeds the analyzer in Lean:

* strings are modelled as `List Char` (`Str`), so every Python string
  primitive used by the analyzer (`rstrip`, `upper`, membership, slicing)
  has a direct executable counterpart;
* the `Line` class and its seven lexical checks become a structure plus
  pure functions;
* the `ast.NodeVisitor` subclass becomes a recursive visitor over an
  inductive `Node` fragment of the Python AST (the node kinds the
  analyzer inspects: `Module`, `ClassDef`, `FunctionDef`, `Assign`,
  `Name`, and the literal kinds used by the mutable-default check);
* the orchestrator `FileStaticCodeAnalyzer` becomes a fold over the list
  of (newline-stripped) lines of the file, returning the list of printed
  diagnostic lines.

Lines handed to `Line` by the orchestrator never contain a newline
character (the file iterator splits on them and `rstrip('\n')` removes
the trailing one), which is why several theorems carry a no-newline
hypothesis.
-/

/-- Python strings, modelled as lists of characters. -/
abbrev Str := List Char

/-- The whitespace characters stripped by Python's no-argument `str.rstrip`
and matched by the regex class `\s` (ASCII fragment). -/
def isPySpace (c : Char) : Bool :=
  c = ' ' || c = '\t' || c = '\n' || c = '\r' || c = '\x0b' || c = '\x0c'

/-- Python `s.rstrip()`: remove trailing whitespace. -/
def pyRstrip (s : Str) : Str :=
  (s.reverse.dropWhile isPySpace).reverse

/-- Python `s.rstrip(chars)`: remove trailing characters drawn from the
character *set* of `chars` (not the suffix `chars`!).  `s.rstrip('')`
removes nothing, matching Python. -/
def pyRstripSet (s : Str) (chars : Str) : Str :=
  (s.reverse.dropWhile (fun c => chars.contains c)).reverse

/-- ASCII upper-casing, the fragment of Python `str.upper` relevant to
the analyzer's `'TODO' in comment.upper()` check. -/
def asciiUpper (c : Char) : Char :=
  if 'a' ≤ c && c ≤ 'z' then Char.ofNat (c.toNat - 32) else c

/-- Characters of the regex class `[A-Z]`. -/
def isUpperA (c : Char) : Bool := 'A' ≤ c && c ≤ 'Z'

/-- Characters of the regex class `[a-z]`. -/
def isLowerA (c : Char) : Bool := 'a' ≤ c && c ≤ 'z'

/-- Characters of the regex class `[a-z_]`. -/
def isSnakeStartChar (c : Char) : Bool := isLowerA c || c = '_'

/-- Characters of the regex class `[\da-z_]`. -/
def isSnakeContChar (c : Char) : Bool :=
  ('0' ≤ c && c ≤ '9') || isLowerA c || c = '_'

/-- Characters of the regex class `\w` (ASCII fragment). -/
def isWordChar (c : Char) : Bool :=
  isLowerA c || isUpperA c || ('0' ≤ c && c ≤ '9') || c = '_'

/-- The two quote characters excluded by the lookbehinds
`(?<!')(?<!")` of the comment-splitting regex. -/
def isQuoteChar (c : Char) : Bool := c = '\x27' || c = '"'

/-- Python's substring operator `needle in hay`. -/
def pySubstring (needle : Str) : Str → Bool
  | [] => needle.isEmpty
  | c :: t => needle.isPrefixOf (c :: t) || pySubstring needle t

/-- Model of `re.search(r"(?<!')(?<!\x22)#(.*)", line)`, scanning for the
first `#` that is not immediately preceded by a quote character; the
returned value is `group()`: that `#` together with everything after it
up to (but excluding) a newline, since `.` does not match `'\n'`.
`prev` is the character immediately before the current position. -/
def searchComment (prev : Option Char) : Str → Option Str
  | [] => none
  | c :: rest =>
    if c = '#' && !(match prev with | some p => isQuoteChar p | none => false) then
      some ('#' :: rest.takeWhile (fun d => d ≠ '\n'))
    else
      searchComment (some c) rest

/-- `Line.split_line_to_code_comment`: the comment part is the regex
match (or `''`), the code part is
`line.rstrip(comment_part).rstrip()` — note the character-set semantics
of two-argument `rstrip` — and the gap is the arithmetic difference of
the three lengths (a Python `int`, hence `Int`). -/
def split_line_to_code_comment (line : Str) : Str × Str × Int :=
  let comment_part := (searchComment none line).getD []
  let code_part := pyRstrip (pyRstripSet line comment_part)
  (code_part, comment_part,
    (line.length : Int) - (code_part.length : Int) - (comment_part.length : Int))

/-- `Line.get_indentation`: length of `re.match(r'^( )*', line).group()`,
i.e. the number of leading space characters (spaces only). -/
def get_indentation (line : Str) : Nat :=
  (line.takeWhile (fun c => c = ' ')).length

/-- The `Line` class: a physical line plus the facts computed in
`Line.__init__`. -/
structure Line where
  line : Str
  line_index : Nat
  preceding_blank_lines : Nat
  length : Nat
  indentation : Nat
  code_part : Str
  comment_part : Str
  code_comment_spaces : Int

/-- `Line.__init__`: derive all fields from the raw line. -/
def mkLine (line : Str) (line_index : Nat) (preceding_blank_lines : Nat) : Line :=
  let split := split_line_to_code_comment line
  { line := line
    line_index := line_index
    preceding_blank_lines := preceding_blank_lines
    length := line.length
    indentation := get_indentation line
    code_part := split.1
    comment_part := split.2.1
    code_comment_spaces := split.2.2 }

def s001msg : Str := "S001 Too long".data

def s002msg : Str := "S002 Indentation is not a multiple of four".data

def s003msg : Str := "S003 Unnecessary semicolon".data

def s004msg : Str := "S004 At least two spaces required before inline comments".data

def s005msg : Str := "S005 TODO found".data

def s006msg : Str := "S006 More than two blank lines used before this line".data

/-- `f'S007 Too many spaces after {construct}'`. -/
def s007msg (construct : Str) : Str := "S007 Too many spaces after ".data ++ construct

namespace Line

/-- `Line.invalid_length`. -/
def invalid_length (self : Line) : Option Str :=
  if self.length > 79 then some s001msg else none

/-- `Line.invalid_indentation`. -/
def invalid_indentation (self : Line) : Option Str :=
  if self.indentation % 4 ≠ 0 then some s002msg else none

/-- `Line.ends_with_semicolon`: `self.code_part.rstrip().endswith(';')`. -/
def ends_with_semicolon (self : Line) : Option Str :=
  if (pyRstrip self.code_part).getLast? = some ';' then some s003msg else none

/-- `Line.invalid_inline_comment_spacing`: both parts truthy (non-empty)
and fewer than two gap characters. -/
def invalid_inline_comment_spacing (self : Line) : Option Str :=
  if !self.code_part.isEmpty && !self.comment_part.isEmpty
      && self.code_comment_spaces < 2 then
    some s004msg
  else none

/-- `Line.todo_in_comment`: `'TODO' in self.comment_part.upper()`. -/
def todo_in_comment (self : Line) : Option Str :=
  if pySubstring "TODO".data (self.comment_part.map asciiUpper) then
    some s005msg
  else none

/-- `Line.invalid_preceding_blanklines`. -/
def invalid_preceding_blanklines (self : Line) : Option Str :=
  if self.preceding_blank_lines > 2 then some s006msg else none

/-- Model of `re.search(r'(def|class)\s+(\w+)', code)` restricted to what
`invalid_spaces_def_class_construction` extracts from the match: the
matched keyword (`group(1)`) and
`len(group(0)) - len(group(1)) - len(group(2))`, i.e. the length of the
whitespace run between keyword and name.  `tryKeywordAt` attempts the
alternation at a fixed position (regex tries `def` before `class`);
`searchDefClass` scans positions left to right. -/
def tryAfterKeyword (kw : Str) (s : Str) : Option Nat :=
  if kw.isPrefixOf s then
    let rest := s.drop kw.length
    let ws := rest.takeWhile isPySpace
    if ws.isEmpty then none
    else if ((rest.drop ws.length).takeWhile isWordChar).isEmpty then none
    else some ws.length
  else none

def tryKeywordAt (s : Str) : Option (Str × Nat) :=
  match tryAfterKeyword "def".data s with
  | some n => some ("def".data, n)
  | none =>
    match tryAfterKeyword "class".data s with
    | some n => some ("class".data, n)
    | none => none

def searchDefClass : Str → Option (Str × Nat)
  | [] => none
  | c :: rest =>
    match tryKeywordAt (c :: rest) with
    | some r => some r
    | none => searchDefClass rest

/-- `Line.invalid_spaces_def_class_construction`. -/
def invalid_spaces_def_class_construction (self : Line) : Option Str :=
  match searchDefClass self.code_part with
  | some (construct, spaces) =>
    if spaces > 1 then some (s007msg construct) else none
  | none => none

end Line

/-- Python `list(filter(bool, xs))` over a list of `Optional[str]`:
`None` and the empty string are falsy and dropped. -/
def pyFilterTruthy : List (Option Str) → List Str
  | [] => []
  | none :: t => pyFilterTruthy t
  | some s :: t => if s.isEmpty then pyFilterTruthy t else s :: pyFilterTruthy t

namespace Line

/-- `Line.get_issues`: the seven checks, in source order, filtered by
truthiness. -/
def get_issues (self : Line) : List Str :=
  pyFilterTruthy
    [invalid_length self,
     invalid_indentation self,
     ends_with_semicolon self,
     invalid_inline_comment_spacing self,
     todo_in_comment self,
     invalid_preceding_blanklines self,
     invalid_spaces_def_class_construction self]

end Line

/-! ### Membership in the truthiness filter -/

theorem pyFilterTruthy_mem (s : Str) (l : List (Option Str)) :
    s ∈ pyFilterTruthy l ↔ some s ∈ l ∧ s.isEmpty = false := by
  induction l with
  | nil => simp [pyFilterTruthy]
  | cons o t ih =>
    match o with
    | none =>
      rw [show pyFilterTruthy (none :: t) = pyFilterTruthy t from rfl, ih]
      simp
    | some v =>
      by_cases hv : v.isEmpty
      · rw [show pyFilterTruthy (some v :: t) = pyFilterTruthy t from by
          simp [pyFilterTruthy, hv], ih]
        constructor
        · rintro ⟨h1, h2⟩
          exact ⟨List.mem_cons_of_mem _ h1, h2⟩
        · rintro ⟨h1, h2⟩
          rcases List.mem_cons.mp h1 with h | h
          · exact absurd (Option.some.inj h ▸ hv) (by simp [h2])
          · exact ⟨h, h2⟩
      · rw [show pyFilterTruthy (some v :: t) = v :: pyFilterTruthy t from by
          simp [pyFilterTruthy, hv]]
        constructor
        · intro h
          rcases List.mem_cons.mp h with h | h
          · subst h
            exact ⟨List.mem_cons_self _ _, by simpa using hv⟩
          · rcases (ih.mp h) with ⟨h1, h2⟩
            exact ⟨List.mem_cons_of_mem _ h1, h2⟩
        · rintro ⟨h1, h2⟩
          rcases List.mem_cons.mp h1 with h | h
          · rw [Option.some.inj h]
            exact List.mem_cons_self _ _
          · exact List.mem_cons_of_mem _ (ih.mpr ⟨h, h2⟩)

/-! ### Characterizing each lexical check -/

theorem invalid_length_eq_some {L : Line} {s : Str} :
    L.invalid_length = some s ↔ 79 < L.length ∧ s = s001msg := by
  unfold Line.invalid_length
  split
  · rename_i h
    simp [h, eq_comm]
  · rename_i h
    simp [h]

theorem invalid_indentation_eq_some {L : Line} {s : Str} :
    L.invalid_indentation = some s ↔ L.indentation % 4 ≠ 0 ∧ s = s002msg := by
  unfold Line.invalid_indentation
  split
  · rename_i h
    simp [h, eq_comm]
  · rename_i h
    simp [h]

theorem ends_with_semicolon_eq_some {L : Line} {s : Str} :
    L.ends_with_semicolon = some s ↔
      (pyRstrip L.code_part).getLast? = some ';' ∧ s = s003msg := by
  unfold Line.ends_with_semicolon
  split
  · rename_i h
    simp [h, eq_comm]
  · rename_i h
    simp [h]

theorem invalid_inline_comment_spacing_eq_some {L : Line} {s : Str} :
    L.invalid_inline_comment_spacing = some s ↔
      (!L.code_part.isEmpty && !L.comment_part.isEmpty
        && L.code_comment_spaces < 2) = true ∧ s = s004msg := by
  unfold Line.invalid_inline_comment_spacing
  split
  · rename_i h
    simp only [h, Option.some.injEq, true_and]
    exact eq_comm
  · rename_i h
    simp [h]

theorem todo_in_comment_eq_some {L : Line} {s : Str} :
    L.todo_in_comment = some s ↔
      pySubstring "TODO".data (L.comment_part.map asciiUpper) = true ∧ s = s005msg := by
  unfold Line.todo_in_comment
  split
  · rename_i h
    simp [h, eq_comm]
  · rename_i h
    simp [h]

theorem invalid_preceding_blanklines_eq_some {L : Line} {s : Str} :
    L.invalid_preceding_blanklines = some s ↔
      2 < L.preceding_blank_lines ∧ s = s006msg := by
  unfold Line.invalid_preceding_blanklines
  split
  · rename_i h
    simp [h, eq_comm]
  · rename_i h
    simp [h]

theorem invalid_spaces_def_class_eq_some {L : Line} {s : Str} :
    L.invalid_spaces_def_class_construction = some s ↔
      ∃ k n, Line.searchDefClass L.code_part = some (k, n) ∧ 1 < n ∧ s = s007msg k := by
  unfold Line.invalid_spaces_def_class_construction
  cases hs : Line.searchDefClass L.code_part with
  | none => simp
  | some kn =>
    obtain ⟨k, n⟩ := kn
    by_cases hn : 1 < n
    · simp only [hn, if_pos, Option.some.injEq, Prod.mk.injEq]
      constructor
      · intro h
        exact ⟨k, n, ⟨rfl, rfl⟩, hn, h.symm⟩
      · rintro ⟨k', n', hk, -, he⟩
        obtain ⟨rfl, rfl⟩ : k = k' ∧ n = n' := by
          simpa using hk
        exact he.symm
    · have hn' : ¬ n > 1 := hn
      simp only [if_neg hn']
      constructor
      · intro h
        cases h
      · rintro ⟨k', n', hk, hgt, -⟩
        obtain ⟨rfl, rfl⟩ : k = k' ∧ n = n' := by
          simpa using hk
        exact absurd hgt hn

/-! ### The issue messages are pairwise distinct

The seven lexical messages (and, later, the five tree messages) start
with distinct four-character codes, so any two of them differ even when
one embeds an arbitrary name. -/

theorem s007msg_ne_s001 (k : Str) : s007msg k ≠ s001msg := by
  intro h
  have h4 : (s007msg k).take 4 = s001msg.take 4 := by rw [h]
  rw [show (s007msg k).take 4 = "S007".data from rfl,
      show s001msg.take 4 = "S001".data from rfl] at h4
  exact absurd h4 (by decide)

theorem s007msg_ne_s006 (k : Str) : s007msg k ≠ s006msg := by
  intro h
  have h4 : (s007msg k).take 4 = s006msg.take 4 := by rw [h]
  rw [show (s007msg k).take 4 = "S007".data from rfl,
      show s006msg.take 4 = "S006".data from rfl] at h4
  exact absurd h4 (by decide)

/-! ### Fields of a freshly constructed `Line` -/

theorem mkLine_length (l : Str) (i b : Nat) : (mkLine l i b).length = l.length := rfl

theorem mkLine_blanks (l : Str) (i b : Nat) :
    (mkLine l i b).preceding_blank_lines = b := rfl

/--
**C9.** For every line, the line-length issue (S001) is returned iff the
length of `raw_text` exceeds 79 characters; in particular a line of
exactly 80 characters always yields the issue and one of 79 never does.
-/
theorem C9_line_length_iff (line : Str) (idx blanks : Nat) :
    s001msg ∈ Line.get_issues (mkLine line idx blanks) ↔ 79 < line.length := by
  rw [Line.get_issues, pyFilterTruthy_mem]
  constructor
  · rintro ⟨hmem, -⟩
    simp only [List.mem_cons, List.not_mem_nil, or_false] at hmem
    rcases hmem with h | h | h | h | h | h | h
    · have := (invalid_length_eq_some.mp h.symm).1
      rwa [mkLine_length] at this
    · exact absurd (invalid_indentation_eq_some.mp h.symm).2 (by decide)
    · exact absurd (ends_with_semicolon_eq_some.mp h.symm).2 (by decide)
    · exact absurd (invalid_inline_comment_spacing_eq_some.mp h.symm).2 (by decide)
    · exact absurd (todo_in_comment_eq_some.mp h.symm).2 (by decide)
    · exact absurd (invalid_preceding_blanklines_eq_some.mp h.symm).2 (by decide)
    · obtain ⟨k, n, -, -, he⟩ := invalid_spaces_def_class_eq_some.mp h.symm
      exact absurd he.symm (s007msg_ne_s001 k)
  · intro h
    refine ⟨List.mem_cons.mpr (Or.inl ?_), by decide⟩
    exact (invalid_length_eq_some.mpr ⟨by rwa [mkLine_length], rfl⟩).symm

/--
**C8.** For the input line `x = 1;  # todo fix` with zero preceding blank
lines and any line index, `get_issues` returns exactly the trailing
semicolon issue (S003) followed by the TODO issue (S005) — in particular
not the inline-comment-spacing issue (S004), the computed gap being 2.
-/
theorem C8_semicolon_todo_line (idx : Nat) :
    Line.get_issues (mkLine "x = 1;  # todo fix".data idx 0) = [s003msg, s005msg] := rfl

theorem semicolon_todo_line_gap :
    (split_line_to_code_comment "x = 1;  # todo fix".data).2.2 = 2 := by decide

/-! ### The comment/code split (C3)

Spec-side description of the comment marker: the position of the first
`#` that is not immediately preceded by a quote character. -/

/-- Index of the first unquoted `#`, written after the spec's words
("the portion before an unquoted `#`-style comment marker"). -/
def markerIndex (prev : Option Char) : Str → Option Nat
  | [] => none
  | c :: rest =>
    if c = '#' && !(match prev with | some p => isQuoteChar p | none => false) then
      some 0
    else
      (markerIndex (some c) rest).map (· + 1)

/-- The marker position, defaulting to the line length when the line has
no comment marker. -/
def markerIndexD (line : Str) : Nat :=
  (markerIndex none line).getD line.length

/-- Spec-side: "the portion of the line before the unquoted `#` comment
marker". -/
def portionBeforeMarker (line : Str) : Str :=
  line.take (markerIndexD line)

theorem takeWhile_all {α : Type} (p : α → Bool) :
    ∀ l : List α, (∀ x ∈ l, p x = true) → l.takeWhile p = l := by
  intro l
  induction l with
  | nil => intro _; rfl
  | cons c t ih =>
    intro h
    have hc := h c (List.mem_cons_self _ _)
    simp [List.takeWhile_cons, hc, ih (fun x hx => h x (List.mem_cons_of_mem _ hx))]

theorem dropWhile_append_all {α : Type} (p : α → Bool) :
    ∀ l₁ l₂ : List α, (∀ x ∈ l₁, p x = true) →
      (l₁ ++ l₂).dropWhile p = l₂.dropWhile p := by
  intro l₁
  induction l₁ with
  | nil => intro l₂ _; rfl
  | cons c t ih =>
    intro l₂ h
    have hc := h c (List.mem_cons_self _ _)
    rw [List.cons_append, List.dropWhile_cons, hc]
    simp only [if_pos]
    exact ih l₂ (fun x hx => h x (List.mem_cons_of_mem _ hx))

/-- Right-stripping yields a prefix of the original list. -/
theorem rstripFront_gen (p : Char → Bool) (s : Str) :
    (s.reverse.dropWhile p).reverse <+: s := by
  obtain ⟨t, ht⟩ : s.reverse.dropWhile p <:+ s.reverse :=
    ⟨s.reverse.takeWhile p, List.takeWhile_append_dropWhile _ _⟩
  refine ⟨t.reverse, ?_⟩
  have := congrArg List.reverse ht
  rwa [List.reverse_append, List.reverse_reverse] at this

theorem pyRstripFront (s : Str) : pyRstrip s <+: s :=
  rstripFront_gen _ s

theorem pyRstripSetFront (s chars : Str) : pyRstripSet s chars <+: s :=
  rstripFront_gen _ s

theorem markerIndex_le_length (prev : Option Char) :
    ∀ (line : Str) (i : Nat), markerIndex prev line = some i → i ≤ line.length := by
  intro line
  induction line generalizing prev with
  | nil => intro i h; cases h
  | cons c rest ih =>
    intro i h
    rw [markerIndex.eq_def] at h
    simp only [] at h
    split at h
    · cases h
      exact Nat.zero_le _
    · match hm : markerIndex (some c) rest with
      | none => rw [hm] at h; cases h
      | some j =>
        rw [hm] at h
        cases h
        have := ih (some c) j hm
        simpa [Nat.succ_le_succ_iff] using this

/-- The regex search returns exactly the slice of the line starting at
the marker index (truncated at a newline, which `.` does not match). -/
theorem searchComment_eq_markerIndex (line : Str) (prev : Option Char) :
    searchComment prev line =
      (markerIndex prev line).map
        (fun i => (line.drop i).takeWhile (fun d => d ≠ '\n')) := by
  induction line generalizing prev with
  | nil => rfl
  | cons c rest ih =>
    rw [searchComment.eq_def, markerIndex.eq_def]
    simp only []
    split
    · rename_i h
      have hc : c = '#' := by
        have := (Bool.and_eq_true _ _).mp h
        simpa using this.1
      subst hc
      simp [List.takeWhile_cons]
    · rw [ih (some c), Option.map_map]
      rfl

/--
**C3 counterexample.** The claim says the code segment is the
(right-trimmed) portion of the line before the unquoted `#` marker.  On
the line `a#a` the portion before the marker is `"a"`, but
`line.rstrip(comment_part)` strips by *character set* — the trailing `a`
of the comment also erases the code's `a` — so the computed code segment
is `""`.
-/
theorem C3_counterexample :
    ¬ ((split_line_to_code_comment "a#a".data).1
        = pyRstrip (portionBeforeMarker "a#a".data)) := by decide

/-- The gap is, by construction, the arithmetic difference of the three
lengths. -/
theorem split_gap_eq (line : Str) :
    (split_line_to_code_comment line).2.2 =
      (line.length : Int) - ((split_line_to_code_comment line).1.length : Int)
        - (((split_line_to_code_comment line).2.1).length : Int) := rfl

/--
**C3 (amended).** For every newline-free input line:
the comment segment is the portion of the line from the unquoted `#`
marker onward; the code segment is a right-trimmed *prefix* of the
portion before the marker (possibly shorter than plain
whitespace-trimming, because trailing characters that also occur in the
comment are stripped too); and the code segment, the literal characters
of the line between the two segments, and the comment segment
reconstruct the original line exactly, the gap being the count of those
in-between characters.
-/
theorem C3_amended_split_invariant (line : Str) (hnl : '\n' ∉ line) :
    (split_line_to_code_comment line).2.1 = line.drop (markerIndexD line)
    ∧ (split_line_to_code_comment line).1 <+: portionBeforeMarker line
    ∧ ∃ middle : Str,
        line = (split_line_to_code_comment line).1 ++ middle
                ++ (split_line_to_code_comment line).2.1
        ∧ (middle.length : Int) = (split_line_to_code_comment line).2.2 := by
  have hcomment :
      (split_line_to_code_comment line).2.1 = line.drop (markerIndexD line) := by
    show (searchComment none line).getD [] = _
    rw [searchComment_eq_markerIndex line none]
    cases hm : markerIndex none line with
    | none => simp [markerIndexD, hm, List.drop_length]
    | some i =>
      simp only [Option.map_some, Option.getD_some, markerIndexD, hm, Option.getD]
      exact takeWhile_all _ _ (fun x hx => by
        have hxl : x ∈ line := List.drop_subset _ _ hx
        simp only [ne_eq, decide_eq_true_eq]
        intro h
        exact hnl (h ▸ hxl))
  have hcl : (split_line_to_code_comment line).1.length ≤ markerIndexD line ∧
      (split_line_to_code_comment line).1 <+: line := by
    constructor
    · show (pyRstrip (pyRstripSet line (split_line_to_code_comment line).2.1)).length ≤ _
      have hset : pyRstripSet line (split_line_to_code_comment line).2.1 =
          ((line.take (markerIndexD line)).reverse.dropWhile
            (fun c => ((split_line_to_code_comment line).2.1).contains c)).reverse := by
        unfold pyRstripSet
        congr 1
        have hsplit : line.reverse =
            ((split_line_to_code_comment line).2.1).reverse
              ++ (line.take (markerIndexD line)).reverse := by
          rw [hcomment, ← List.reverse_append, List.take_append_drop]
        rw [hsplit]
        exact dropWhile_append_all _ _ _ (fun x hx => by
          have : x ∈ (split_line_to_code_comment line).2.1 :=
            List.mem_reverse.mp hx
          simpa using List.elem_eq_true_of_mem this)
      calc (pyRstrip (pyRstripSet line (split_line_to_code_comment line).2.1)).length
          ≤ (pyRstripSet line (split_line_to_code_comment line).2.1).length :=
            (pyRstripFront _).length_le
        _ ≤ (line.take (markerIndexD line)).length := by
            rw [hset]
            calc ((line.take (markerIndexD line)).reverse.dropWhile
                    (fun c => ((split_line_to_code_comment line).2.1).contains c)).reverse.length
                = ((line.take (markerIndexD line)).reverse.dropWhile
                    (fun c => ((split_line_to_code_comment line).2.1).contains c)).length := by
                  simp
              _ ≤ ((line.take (markerIndexD line)).reverse).length :=
                  List.IsSuffix.length_le ⟨_, List.takeWhile_append_dropWhile _ _⟩
              _ = (line.take (markerIndexD line)).length := by simp
        _ ≤ markerIndexD line := by simp
    · show pyRstrip (pyRstripSet line _) <+: line
      exact (pyRstripFront _).trans (pyRstripSetFront _ _)
  refine ⟨hcomment, ?_, ?_⟩
  · obtain ⟨hlen, hpre⟩ := hcl
    rw [List.prefix_iff_eq_take] at hpre
    rw [List.prefix_iff_eq_take]
    unfold portionBeforeMarker
    rw [List.take_take, Nat.min_eq_left hlen]
    exact hpre
  · obtain ⟨hlen, hpre⟩ := hcl
    set code := (split_line_to_code_comment line).1 with hcode
    set i := markerIndexD line with hi
    have hil : i ≤ line.length := by
      rw [hi]
      unfold markerIndexD
      cases hm : markerIndex none line with
      | none => simp
      | some j => simpa using markerIndex_le_length none line j hm
    refine ⟨(line.drop code.length).take (i - code.length), ?_, ?_⟩
    · have hdd : (line.drop code.length).drop (i - code.length) = line.drop i := by
        rw [List.drop_drop]
        congr 1
        omega
      conv_lhs => rw [(List.take_append_drop code.length line).symm]
      rw [List.prefix_iff_eq_take] at hpre
      rw [← hpre, List.append_assoc]
      congr 1
      rw [hcomment, ← hdd]
      exact (List.take_append_drop _ _).symm
    · rw [split_gap_eq, hcomment, ← hcode]
      simp only [List.length_take, List.length_drop]
      push_cast
      omega

/-- Witness for the amended C3 theorem at a concrete line. -/
theorem C3_amended_witness :
    (split_line_to_code_comment "x = 1  # hi".data).2.1
        = "x = 1  # hi".data.drop (markerIndexD "x = 1  # hi".data)
    ∧ (split_line_to_code_comment "x = 1  # hi".data).1
        <+: portionBeforeMarker "x = 1  # hi".data
    ∧ ∃ middle : Str,
        "x = 1  # hi".data = (split_line_to_code_comment "x = 1  # hi".data).1 ++ middle
            ++ (split_line_to_code_comment "x = 1  # hi".data).2.1
        ∧ (middle.length : Int) = (split_line_to_code_comment "x = 1  # hi".data).2.2 :=
  C3_amended_split_invariant "x = 1  # hi".data (by decide)

/-! ### Naming predicates and the tree checker's message builders (C4) -/

/-- One greedy repetition of `[A-Z]+[a-z]*`: at least one uppercase
letter, then any run of lowercase letters; `none` when no uppercase
letter starts the string. -/
def camelChunk (cs : Str) : Option Str :=
  let ups := cs.takeWhile isUpperA
  if ups.isEmpty then none
  else some ((cs.drop ups.length).dropWhile isLowerA)

/-- `ASTNodeAnalyzer.is_camelcase`: truthiness of
`re.match(r'^([A-Z]+[a-z]*)+', name)`.  A `+`-repetition matches at the
start of the string iff a single repetition does, so the match object is
truthy iff one `[A-Z]+[a-z]*` chunk matches at position 0. -/
def is_camelcase (name : Str) : Bool := (camelChunk name).isSome

/-- One greedy repetition of `[a-z_]+[\da-z_]*`. -/
def snakeChunk (cs : Str) : Option Str :=
  let starts := cs.takeWhile isSnakeStartChar
  if starts.isEmpty then none
  else some ((cs.drop starts.length).dropWhile isSnakeContChar)

/-- `ASTNodeAnalyzer.is_snakecase`: truthiness of
`re.match(r'^[a-z_]+[\da-z_]*', name)`. -/
def is_snakecase (name : Str) : Bool := (snakeChunk name).isSome

def s008msg (classname : Str) : Str :=
  "S008 Class name ".data ++ classname ++ " should use CamelCase".data

def s009msg (function_name : Str) : Str :=
  "S009 Function name ".data ++ function_name ++ " should use snake_case".data

def s010msg (arg_name : Str) : Str :=
  "S010 Argument name ".data ++ arg_name ++ " should be snake_case".data

def s011msg (var_name : Str) : Str :=
  "S011 Variable ".data ++ var_name ++ " should be snake_case".data

def s012msg : Str := "S012 The default argument value is mutable".data

/-- `ASTNodeAnalyzer.invalid_classname`. -/
def invalid_classname (classname : Str) : Option Str :=
  if !is_camelcase classname then some (s008msg classname) else none

/-- `ASTNodeAnalyzer.invalid_function_name`. -/
def invalid_function_name (function_name : Str) : Option Str :=
  if !is_snakecase function_name then some (s009msg function_name) else none

/-- Python truthiness of an `Optional[str]`. -/
def pyTruthyName : Option Str → Bool
  | none => false
  | some s => !s.isEmpty

/-- `ASTNodeAnalyzer.invalid_arg_var_names(arg_name=..., var_name=...)`:
two guarded checks sharing one snake_case rule but with distinct
messages. -/
def invalid_arg_var_names (argName varName : Option Str) : Option Str :=
  if pyTruthyName argName && !is_snakecase (argName.getD []) then
    some (s010msg (argName.getD []))
  else if pyTruthyName varName && !is_snakecase (varName.getD []) then
    some (s011msg (varName.getD []))
  else none

/--
**C4.** The CamelCase and snake_case predicates accept on a matching
prefix, not the full name: any name starting with an uppercase ASCII
letter is accepted by `is_camelcase` (so `invalid_classname` records no
issue), and any name starting with a lowercase ASCII letter or
underscore is accepted by `is_snakecase` (so neither the
function-naming nor the argument/variable-naming check records an
issue), regardless of the remaining characters.
-/
theorem C4_predicates_match_leading (c : Char) (rest : Str) :
    (isUpperA c = true →
      is_camelcase (c :: rest) = true ∧ invalid_classname (c :: rest) = none)
    ∧ (isSnakeStartChar c = true →
      is_snakecase (c :: rest) = true
      ∧ invalid_function_name (c :: rest) = none
      ∧ invalid_arg_var_names (some (c :: rest)) none = none
      ∧ invalid_arg_var_names none (some (c :: rest)) = none) := by
  constructor
  · intro hc
    have h1 : is_camelcase (c :: rest) = true := by
      simp [is_camelcase, camelChunk, List.takeWhile_cons, hc]
    exact ⟨h1, by simp [invalid_classname, h1]⟩
  · intro hc
    have h1 : is_snakecase (c :: rest) = true := by
      simp [is_snakecase, snakeChunk, List.takeWhile_cons, hc]
    refine ⟨h1, by simp [invalid_function_name, h1], ?_, ?_⟩
    · simp [invalid_arg_var_names, pyTruthyName, h1]
    · simp [invalid_arg_var_names, pyTruthyName, h1]

/-- Witness for C4 at concrete names: `Bad!name` (uppercase start,
invalid suffix) and `_x-Y` (underscore start, invalid suffix). -/
theorem C4_witness :
    (isUpperA 'B' = true
      ∧ is_camelcase ('B' :: "ad!name".data) = true
      ∧ invalid_classname ('B' :: "ad!name".data) = none)
    ∧ (isSnakeStartChar '_' = true
      ∧ is_snakecase ('_' :: "x-Y".data) = true
      ∧ invalid_function_name ('_' :: "x-Y".data) = none
      ∧ invalid_arg_var_names (some ('_' :: "x-Y".data)) none = none
      ∧ invalid_arg_var_names none (some ('_' :: "x-Y".data)) = none) := by
  have h1 := (C4_predicates_match_leading 'B' "ad!name".data).1 (by decide)
  have h2 := (C4_predicates_match_leading '_' "x-Y".data).2 (by decide)
  exact ⟨⟨by decide, h1.1, h1.2⟩, ⟨by decide, h2.1, h2.2.1, h2.2.2.1, h2.2.2.2⟩⟩

/-! ### The AST fragment

The analyzer inspects only: `ClassDef` and `FunctionDef` declarations,
`Name` nodes in store context, and whether default expressions are
`Dict`/`List`/`Set` literals.  The fragment models those node kinds plus
`Module`, `Assign` and an opaque constant expression; parameter names of
a `FunctionDef` are plain strings (in the real AST they are `arg`
nodes, which are not `Name` nodes and are invisible to every check). -/

inductive Node where
  | module (body : List Node)
  | classDef (lineno : Nat) (nodeName : Str) (body : List Node)
  | functionDef (lineno : Nat) (nodeName : Str) (args : List Str)
      (defaults : List Node) (body : List Node)
  | assign (lineno : Nat) (targets : List Node) (value : Node)
  | nameNode (lineno : Nat) (id : Str) (isStore : Bool)
  | dictLit (lineno : Nat)
  | listLit (lineno : Nat)
  | setLit (lineno : Nat)
  | constLit (lineno : Nat)

/-- `ast.iter_child_nodes`, restricted to the fragment: a
`FunctionDef`'s `arguments` child contributes its default expressions
(before the body, matching the `_fields` order of the real AST); an
`Assign` contributes its targets then its value. -/
def children : Node → List Node
  | .module b => b
  | .classDef _ _ b => b
  | .functionDef _ _ _ d b => d ++ b
  | .assign _ t v => t ++ [v]
  | .nameNode _ _ _ => []
  | .dictLit _ => []
  | .listLit _ => []
  | .setLit _ => []
  | .constLit _ => []

mutual

def nodeSize : Node → Nat
  | .module b => 1 + forestSize b
  | .classDef _ _ b => 1 + forestSize b
  | .functionDef _ _ _ d b => 1 + forestSize d + forestSize b
  | .assign _ t v => 1 + forestSize t + nodeSize v
  | .nameNode _ _ _ => 1
  | .dictLit _ => 1
  | .listLit _ => 1
  | .setLit _ => 1
  | .constLit _ => 1

def forestSize : List Node → Nat
  | [] => 0
  | n :: t => nodeSize n + forestSize t

end

theorem forestSize_append (l₁ l₂ : List Node) :
    forestSize (l₁ ++ l₂) = forestSize l₁ + forestSize l₂ := by
  induction l₁ with
  | nil => simp [forestSize]
  | cons n t ih => simp [forestSize, ih]; omega

theorem nodeSize_children (n : Node) :
    nodeSize n = 1 + forestSize (children n) := by
  cases n <;> simp [nodeSize, children, forestSize, forestSize_append] <;> omega

/-- `ast.walk`: breadth-first traversal yielding every node of the
forest, starting from the given queue. -/
def walkQ : List Node → List Node
  | [] => []
  | n :: q => n :: walkQ (q ++ children n)
termination_by l => forestSize l
decreasing_by
  simp only [forestSize, forestSize_append]
  have h := nodeSize_children n
  omega

/-! ### The issue accumulator (`lineno_to_issues_map`) -/

/-- An insertion-ordered dictionary from line numbers to issue lists. -/
abbrev IssueMap := List (Nat × List Str)

/-- `self.lineno_to_issues_map.setdefault(lineno, []).append(issue)`. -/
def setdefaultAppend : IssueMap → Nat → Str → IssueMap
  | [], k, v => [(k, [v])]
  | (k', vs) :: rest, k, v =>
    if k' = k then (k', vs ++ [v]) :: rest
    else (k', vs) :: setdefaultAppend rest k v

/-- `ASTNodeAnalyzer.add_issue_to_list`: `if issue:` skips both `None`
and the empty string. -/
def add_issue_to_list (m : IssueMap) (lineno : Nat) (issue : Option Str) : IssueMap :=
  match issue with
  | some s => if s.isEmpty then m else setdefaultAppend m lineno s
  | none => m

/-- `ASTNodeAnalyzer.get_line_issues`: `dict.get(line_index, None)`. -/
def get_line_issues : IssueMap → Nat → Option (List Str)
  | [], _ => none
  | (k', vs) :: rest, k => if k' = k then some vs else get_line_issues rest k

/-- The issues recorded for a line (empty list when the key is absent). -/
def lookupIssues (m : IssueMap) (k : Nat) : List Str :=
  (get_line_issues m k).getD []

/-- How often `msg` was recorded for line `k`. -/
def countMsg (m : IssueMap) (k : Nat) (msg : Str) : Nat :=
  (lookupIssues m k).count msg

theorem lookupIssues_setdefaultAppend (m : IssueMap) (k' : Nat) (v : Str) (k : Nat) :
    lookupIssues (setdefaultAppend m k' v) k =
      if k' = k then lookupIssues m k ++ [v] else lookupIssues m k := by
  induction m with
  | nil =>
    by_cases h : k' = k <;> simp [setdefaultAppend, lookupIssues, get_line_issues, h]
  | cons p rest ih =>
    obtain ⟨a, vs⟩ := p
    by_cases ha : a = k'
    · subst ha
      rw [show setdefaultAppend ((a, vs) :: rest) a v = (a, vs ++ [v]) :: rest from by
        simp [setdefaultAppend]]
      by_cases hk : a = k
      · subst hk
        simp [lookupIssues, get_line_issues]
      · simp [lookupIssues, get_line_issues, hk]
    · rw [show setdefaultAppend ((a, vs) :: rest) k' v
          = (a, vs) :: setdefaultAppend rest k' v from by
        simp [setdefaultAppend, fun h => ha h]]
      by_cases hk : a = k
      · subst hk
        have hk' : ¬ k' = a := fun h => ha h.symm
        simp [lookupIssues, get_line_issues, hk']
      · simp only [lookupIssues] at ih ⊢
        simp [get_line_issues, hk, ih]

theorem lookupIssues_add_none (m : IssueMap) (ℓ k : Nat) :
    lookupIssues (add_issue_to_list m ℓ none) k = lookupIssues m k := rfl

theorem lookupIssues_add_some (m : IssueMap) (ℓ : Nat) (s : Str) (k : Nat)
    (hs : s.isEmpty = false) :
    lookupIssues (add_issue_to_list m ℓ (some s)) k =
      if ℓ = k then lookupIssues m k ++ [s] else lookupIssues m k := by
  have he : add_issue_to_list m ℓ (some s) = setdefaultAppend m ℓ s := by
    simp [add_issue_to_list, hs]
  rw [he]
  exact lookupIssues_setdefaultAppend m ℓ s k

/-! ### The visitor (`ASTNodeAnalyzer.visit` and friends) -/

/-- `ASTNodeAnalyzer.is_mutable`'s per-item test:
`any([isinstance(item, ast.Dict), isinstance(item, ast.List),
isinstance(item, ast.Set)])`. -/
def isMutableLiteral : Node → Bool
  | .dictLit _ => true
  | .listLit _ => true
  | .setLit _ => true
  | _ => false

/-- `ASTNodeAnalyzer.is_mutable`: return the S012 message on the first
mutable default, `None` otherwise. -/
def is_mutable : List Node → Option Str
  | [] => none
  | item :: rest =>
    if isMutableLiteral item then some s012msg else is_mutable rest

/-- The `for arg in node.args.args` loop of `visit_FunctionDef`. -/
def argsPass (m : IssueMap) (lineno : Nat) (args : List Str) : IssueMap :=
  args.foldl
    (fun acc a => add_issue_to_list acc lineno (invalid_arg_var_names (some a) none)) m

/-- The `for func_child_node in ast.walk(node)` loop of
`visit_FunctionDef`: record a snake_case issue for every `Name` node in
store context, at the name's own line. -/
def storeNamePass (m : IssueMap) (nodes : List Node) : IssueMap :=
  nodes.foldl
    (fun acc n =>
      match n with
      | .nameNode ℓ id true => add_issue_to_list acc ℓ (invalid_arg_var_names none (some id))
      | _ => acc) m

mutual

/-- `ast.NodeVisitor.visit`: `ClassDef` and `FunctionDef` have dedicated
visitors; every other node kind falls through to `generic_visit`, which
visits the children in order (an `Assign`'s targets, then its value).
`visit_FunctionDef` performs, in source order: the function-name check,
the positional-argument loop, the store-context walk of the *entire*
subtree (`ast.walk(node)`), the mutable-default check, and finally
`generic_visit`. -/
def visit (m : IssueMap) : Node → IssueMap
  | .module body => visitList m body
  | .classDef lineno nm body =>
    visitList (add_issue_to_list m lineno (invalid_classname nm)) body
  | .functionDef lineno nm args defaults body =>
    visitList
      (visitList
        (add_issue_to_list
          (storeNamePass
            (argsPass (add_issue_to_list m lineno (invalid_function_name nm)) lineno args)
            (walkQ [.functionDef lineno nm args defaults body]))
          lineno (is_mutable defaults))
        defaults)
      body
  | .assign _ targets value => visit (visitList m targets) value
  | .nameNode _ _ _ => m
  | .dictLit _ => m
  | .listLit _ => m
  | .setLit _ => m
  | .constLit _ => m

/-- `generic_visit`: visit a list of child nodes left to right. -/
def visitList (m : IssueMap) : List Node → IssueMap
  | [] => m
  | n :: rest => visitList (visit m n) rest

end

/-! ### Non-emptiness and pairwise distinctness of the tree messages -/

theorem s008msg_nonempty (n : Str) : (s008msg n).isEmpty = false := rfl

theorem s009msg_nonempty (n : Str) : (s009msg n).isEmpty = false := rfl

theorem s010msg_nonempty (n : Str) : (s010msg n).isEmpty = false := rfl

theorem s011msg_nonempty (n : Str) : (s011msg n).isEmpty = false := rfl

theorem s012msg_nonempty : s012msg.isEmpty = false := rfl

theorem ne_of_take4_ne {a b : Str} (h : a.take 4 ≠ b.take 4) : a ≠ b :=
  fun e => h (by rw [e])

theorem s008msg_ne_s012 (n : Str) : s008msg n ≠ s012msg :=
  ne_of_take4_ne (by
    rw [show (s008msg n).take 4 = "S008".data from rfl,
        show s012msg.take 4 = "S012".data from rfl]
    decide)

theorem s009msg_ne_s012 (n : Str) : s009msg n ≠ s012msg :=
  ne_of_take4_ne (by
    rw [show (s009msg n).take 4 = "S009".data from rfl,
        show s012msg.take 4 = "S012".data from rfl]
    decide)

theorem s010msg_ne_s012 (n : Str) : s010msg n ≠ s012msg :=
  ne_of_take4_ne (by
    rw [show (s010msg n).take 4 = "S010".data from rfl,
        show s012msg.take 4 = "S012".data from rfl]
    decide)

theorem s011msg_ne_s012 (n : Str) : s011msg n ≠ s012msg :=
  ne_of_take4_ne (by
    rw [show (s011msg n).take 4 = "S011".data from rfl,
        show s012msg.take 4 = "S012".data from rfl]
    decide)

theorem s008msg_ne_s011 (n v : Str) : s008msg n ≠ s011msg v :=
  ne_of_take4_ne (by
    rw [show (s008msg n).take 4 = "S008".data from rfl,
        show (s011msg v).take 4 = "S011".data from rfl]
    decide)

theorem s009msg_ne_s011 (n v : Str) : s009msg n ≠ s011msg v :=
  ne_of_take4_ne (by
    rw [show (s009msg n).take 4 = "S009".data from rfl,
        show (s011msg v).take 4 = "S011".data from rfl]
    decide)

theorem s010msg_ne_s011 (n v : Str) : s010msg n ≠ s011msg v :=
  ne_of_take4_ne (by
    rw [show (s010msg n).take 4 = "S010".data from rfl,
        show (s011msg v).take 4 = "S011".data from rfl]
    decide)

/-! ### Counting and membership through a single `add_issue_to_list` -/

theorem countMsg_add_none (m : IssueMap) (ℓ k : Nat) (msg : Str) :
    countMsg (add_issue_to_list m ℓ none) k msg = countMsg m k msg := rfl

theorem countMsg_add_some_ne (m : IssueMap) (ℓ k : Nat) {s msg : Str}
    (hne : s ≠ msg) :
    countMsg (add_issue_to_list m ℓ (some s)) k msg = countMsg m k msg := by
  by_cases hs : s.isEmpty
  · have he : add_issue_to_list m ℓ (some s) = m := by
      simp [add_issue_to_list, hs]
    rw [he]
  · unfold countMsg
    rw [lookupIssues_add_some m ℓ s k (by simpa using hs)]
    split
    · rw [List.count_append]
      simp [List.count_singleton, hne]
    · rfl

theorem countMsg_add_some_other_line (m : IssueMap) {ℓ k : Nat} (s : Str) (msg : Str)
    (hk : ℓ ≠ k) :
    countMsg (add_issue_to_list m ℓ (some s)) k msg = countMsg m k msg := by
  by_cases hs : s.isEmpty
  · have he : add_issue_to_list m ℓ (some s) = m := by
      simp [add_issue_to_list, hs]
    rw [he]
  · unfold countMsg
    rw [lookupIssues_add_some m ℓ s k (by simpa using hs), if_neg hk]

theorem countMsg_add_self (m : IssueMap) (ℓ : Nat) (s : Str)
    (hs : s.isEmpty = false) :
    countMsg (add_issue_to_list m ℓ (some s)) ℓ s = countMsg m ℓ s + 1 := by
  unfold countMsg
  rw [lookupIssues_add_some m ℓ s ℓ hs, if_pos rfl, List.count_append]
  simp [List.count_singleton]

theorem mem_lookup_add (m : IssueMap) (ℓ : Nat) (o : Option Str) (k : Nat) {msg : Str}
    (h : msg ∈ lookupIssues m k) : msg ∈ lookupIssues (add_issue_to_list m ℓ o) k := by
  match o with
  | none => exact h
  | some s =>
    by_cases hs : s.isEmpty
    · have he : add_issue_to_list m ℓ (some s) = m := by
        simp [add_issue_to_list, hs]
      rw [he]
      exact h
    · rw [lookupIssues_add_some m ℓ s k (by simpa using hs)]
      split
      · exact List.mem_append_left _ h
      · exact h

theorem mem_lookup_add_self (m : IssueMap) (ℓ : Nat) (s : Str)
    (hs : s.isEmpty = false) :
    s ∈ lookupIssues (add_issue_to_list m ℓ (some s)) ℓ := by
  rw [lookupIssues_add_some m ℓ s ℓ hs, if_pos rfl]
  exact List.mem_append_right _ (List.mem_singleton_self s)

/-! ### What `invalid_arg_var_names` can return -/

theorem invalid_arg_eq (a : Str) (h1 : a ≠ []) (h2 : is_snakecase a = false) :
    invalid_arg_var_names (some a) none = some (s010msg a) := by
  unfold invalid_arg_var_names
  have ht : pyTruthyName (some a) = true := by
    simp [pyTruthyName, h1]
  rw [ht]
  simp [h2]

theorem invalid_var_eq (v : Str) (h1 : v ≠ []) (h2 : is_snakecase v = false) :
    invalid_arg_var_names none (some v) = some (s011msg v) := by
  unfold invalid_arg_var_names
  have ht : pyTruthyName (some v) = true := by
    simp [pyTruthyName, h1]
  rw [ht]
  simp [pyTruthyName, h2]

theorem invalid_arg_cases (a : Str) :
    invalid_arg_var_names (some a) none = none
    ∨ invalid_arg_var_names (some a) none = some (s010msg a) := by
  unfold invalid_arg_var_names
  split
  · right
    rfl
  · left
    simp [pyTruthyName]

theorem invalid_var_cases (v : Str) :
    invalid_arg_var_names none (some v) = none
    ∨ invalid_arg_var_names none (some v) = some (s011msg v) := by
  unfold invalid_arg_var_names
  split
  · rename_i h
    rw [show pyTruthyName none = false from rfl] at h
    simp at h
  · split
    · right
      rfl
    · left
      rfl

theorem invalid_function_name_cases (nm : Str) :
    invalid_function_name nm = none ∨ invalid_function_name nm = some (s009msg nm) := by
  unfold invalid_function_name
  split
  · right
    rfl
  · left
    rfl

theorem invalid_classname_cases (nm : Str) :
    invalid_classname nm = none ∨ invalid_classname nm = some (s008msg nm) := by
  unfold invalid_classname
  split
  · right
    rfl
  · left
    rfl

/-! ### Sizes -/

theorem nodeSize_pos (n : Node) : 1 ≤ nodeSize n := by
  cases n <;> simp [nodeSize] <;> omega

theorem forestSize_cons (n : Node) (t : List Node) :
    forestSize (n :: t) = nodeSize n + forestSize t := by
  simp [forestSize]

theorem forestSize_nil : forestSize [] = 0 := by
  simp [forestSize]

/-! ### Monotonicity: visiting only ever appends issues -/

theorem argsPass_mono (ℓ : Nat) (args : List Str) (k : Nat) {msg : Str} :
    ∀ m, msg ∈ lookupIssues m k → msg ∈ lookupIssues (argsPass m ℓ args) k := by
  induction args with
  | nil => exact fun m h => h
  | cons a t ih =>
    intro m h
    exact ih _ (mem_lookup_add _ _ _ _ h)

theorem storeNamePass_mono (nodes : List Node) (k : Nat) {msg : Str} :
    ∀ m, msg ∈ lookupIssues m k → msg ∈ lookupIssues (storeNamePass m nodes) k := by
  induction nodes with
  | nil => exact fun m h => h
  | cons n t ih =>
    intro m h
    refine ih _ ?_
    cases n with
    | nameNode ℓ id isStore =>
      cases isStore with
      | true => exact mem_lookup_add _ _ _ _ h
      | false => exact h
    | module b => exact h
    | classDef ℓ nm b => exact h
    | functionDef ℓ nm args d b => exact h
    | assign ℓ t' v => exact h
    | dictLit ℓ => exact h
    | listLit ℓ => exact h
    | setLit ℓ => exact h
    | constLit ℓ => exact h

theorem visitList_mono_sized (k : Nat) (msg : Str) :
    ∀ (sz : Nat) (ns : List Node), forestSize ns ≤ sz →
      ∀ m, msg ∈ lookupIssues m k → msg ∈ lookupIssues (visitList m ns) k := by
  intro sz
  induction sz with
  | zero =>
    intro ns hns m h
    match ns with
    | [] => simpa [visitList] using h
    | n :: t =>
      rw [forestSize_cons] at hns
      have := nodeSize_pos n
      omega
  | succ sz ih =>
    intro ns hns m h
    match ns with
    | [] => simpa [visitList] using h
    | n :: t =>
      rw [forestSize_cons] at hns
      have hstep : msg ∈ lookupIssues (visit m n) k := by
        cases n with
        | module body =>
          rw [show visit m (.module body) = visitList m body from by simp [visit]]
          refine ih body ?_ m h
          simp [nodeSize] at hns
          omega
        | classDef ℓ nm body =>
          rw [show visit m (.classDef ℓ nm body)
              = visitList (add_issue_to_list m ℓ (invalid_classname nm)) body from by
            simp [visit]]
          refine ih body ?_ _ (mem_lookup_add _ _ _ _ h)
          simp [nodeSize] at hns
          omega
        | functionDef ℓ nm args defaults body =>
          rw [show visit m (.functionDef ℓ nm args defaults body)
              = visitList
                  (visitList
                    (add_issue_to_list
                      (storeNamePass
                        (argsPass (add_issue_to_list m ℓ (invalid_function_name nm)) ℓ args)
                        (walkQ [.functionDef ℓ nm args defaults body]))
                      ℓ (is_mutable defaults))
                    defaults)
                  body from by simp [visit]]
          have hd : forestSize defaults ≤ sz := by
            simp [nodeSize] at hns
            omega
          have hb : forestSize body ≤ sz := by
            simp [nodeSize] at hns
            omega
          refine ih body hb _ (ih defaults hd _ (mem_lookup_add _ _ _ _
            (storeNamePass_mono _ _ _ (argsPass_mono _ _ _ _
              (mem_lookup_add _ _ _ _ h)))))
        | assign ℓ targets value =>
          rw [show visit m (.assign ℓ targets value)
              = visit (visitList m targets) value from by simp [visit]]
          have hv : visit (visitList m targets) value
              = visitList (visitList m targets) [value] := by
            simp [visitList]
          rw [hv]
          have ht : forestSize targets ≤ sz := by
            simp [nodeSize] at hns
            omega
          have hv' : forestSize [value] ≤ sz := by
            rw [forestSize_cons, forestSize_nil]
            simp [nodeSize] at hns
            omega
          exact ih [value] hv' _ (ih targets ht _ h)
        | nameNode ℓ id isStore =>
          rw [show visit m (.nameNode ℓ id isStore) = m from by simp [visit]]
          exact h
        | dictLit ℓ =>
          rw [show visit m (.dictLit ℓ) = m from by simp [visit]]
          exact h
        | listLit ℓ =>
          rw [show visit m (.listLit ℓ) = m from by simp [visit]]
          exact h
        | setLit ℓ =>
          rw [show visit m (.setLit ℓ) = m from by simp [visit]]
          exact h
        | constLit ℓ =>
          rw [show visit m (.constLit ℓ) = m from by simp [visit]]
          exact h
      rw [show visitList m (n :: t) = visitList (visit m n) t from by simp [visitList]]
      refine ih t ?_ _ hstep
      have := nodeSize_pos n
      omega

theorem visitList_mono (ns : List Node) (k : Nat) (msg : Str) (m : IssueMap)
    (h : msg ∈ lookupIssues m k) : msg ∈ lookupIssues (visitList m ns) k :=
  visitList_mono_sized k msg (forestSize ns) ns (Nat.le_refl _) m h

theorem visit_mono (n : Node) (k : Nat) (msg : Str) (m : IssueMap)
    (h : msg ∈ lookupIssues m k) : msg ∈ lookupIssues (visit m n) k := by
  have he : visitList m [n] = visit m n := by
    simp [visitList]
  rw [← he]
  exact visitList_mono [n] k msg m h

/-! ### C5: where parameter and variable naming issues are recorded -/

theorem argsPass_adds (ℓ : Nat) (args : List Str) (a : Str)
    (ha : a ∈ args) (h1 : a ≠ []) (h2 : is_snakecase a = false) :
    ∀ m, s010msg a ∈ lookupIssues (argsPass m ℓ args) ℓ := by
  induction args with
  | nil => cases ha
  | cons b t ih =>
    intro m
    rcases List.mem_cons.mp ha with h | h
    · subst h
      have hstep : s010msg a ∈ lookupIssues
          (add_issue_to_list m ℓ (invalid_arg_var_names (some a) none)) ℓ := by
        rw [invalid_arg_eq a h1 h2]
        exact mem_lookup_add_self _ _ _ (s010msg_nonempty a)
      exact argsPass_mono ℓ t ℓ _ hstep
    · exact ih h _

theorem storeNamePass_adds (nodes : List Node) (ℓ' : Nat) (id : Str)
    (hn : Node.nameNode ℓ' id true ∈ nodes) (h1 : id ≠ [])
    (h2 : is_snakecase id = false) :
    ∀ m, s011msg id ∈ lookupIssues (storeNamePass m nodes) ℓ' := by
  induction nodes with
  | nil => cases hn
  | cons x t ih =>
    intro m
    rcases List.mem_cons.mp hn with h | h
    · subst h
      have hstep : s011msg id ∈ lookupIssues
          (add_issue_to_list m ℓ' (invalid_arg_var_names none (some id))) ℓ' := by
        rw [invalid_var_eq id h1 h2]
        exact mem_lookup_add_self _ _ _ (s011msg_nonempty id)
      exact storeNamePass_mono t ℓ' _ hstep
    · exact ih h _

/--
**C5.** For every function declaration: a snake_case violation on a
positional parameter is recorded at the *declaration's* line with the
S010 argument-naming message (distinct from the S009 function-name
code), whereas a snake_case violation on a simple name in store context
anywhere in the walked subtree is recorded at the *name's own* line
with the S011 variable-naming message.
-/
theorem C5_param_vs_variable_naming (m : IssueMap) (ℓ : Nat) (nm : Str)
    (args : List Str) (defaults body : List Node) :
    (∀ a, a ∈ args → a ≠ [] → is_snakecase a = false →
      s010msg a ∈ lookupIssues (visit m (.functionDef ℓ nm args defaults body)) ℓ)
    ∧ (∀ ℓ' id,
        Node.nameNode ℓ' id true ∈ walkQ [.functionDef ℓ nm args defaults body] →
        id ≠ [] → is_snakecase id = false →
        s011msg id ∈ lookupIssues (visit m (.functionDef ℓ nm args defaults body)) ℓ') := by
  rw [show visit m (.functionDef ℓ nm args defaults body)
      = visitList
          (visitList
            (add_issue_to_list
              (storeNamePass
                (argsPass (add_issue_to_list m ℓ (invalid_function_name nm)) ℓ args)
                (walkQ [.functionDef ℓ nm args defaults body]))
              ℓ (is_mutable defaults))
            defaults)
          body from by simp [visit]]
  constructor
  · intro a ha h1 h2
    exact visitList_mono body _ _ _ (visitList_mono defaults _ _ _
      (mem_lookup_add _ _ _ _ (storeNamePass_mono _ _ _
        (argsPass_adds ℓ args a ha h1 h2 _))))
  · intro ℓ' id hmem h1 h2
    exact visitList_mono body _ _ _ (visitList_mono defaults _ _ _
      (mem_lookup_add _ _ _ _
        (storeNamePass_adds _ ℓ' id hmem h1 h2 _)))

/-- A concrete declaration `def f(BadArg):` (line 1) whose body performs
`My_Var = ...` (line 2). -/
def fnExample : Node :=
  Node.functionDef 1 "f".data ["BadArg".data] []
    [Node.assign 2 [Node.nameNode 2 "My_Var".data true] (Node.constLit 2)]

/-- Witness for C5: on `fnExample` the S010 issue lands on line 1 (the
declaration) and the S011 issue on line 2 (the assignment). -/
theorem C5_witness :
    s010msg "BadArg".data ∈ lookupIssues (visit [] fnExample) 1
    ∧ s011msg "My_Var".data ∈ lookupIssues (visit [] fnExample) 2 := by
  have h := C5_param_vs_variable_naming [] 1 "f".data ["BadArg".data] []
    [Node.assign 2 [Node.nameNode 2 "My_Var".data true] (Node.constLit 2)]
  constructor
  · exact h.1 "BadArg".data (by simp) (by decide) (by decide)
  · refine h.2 2 "My_Var".data ?_ (by decide) (by decide)
    rw [show walkQ [Node.functionDef 1 "f".data ["BadArg".data] []
          [Node.assign 2 [Node.nameNode 2 "My_Var".data true] (Node.constLit 2)]]
        = [Node.functionDef 1 "f".data ["BadArg".data] []
            [Node.assign 2 [Node.nameNode 2 "My_Var".data true] (Node.constLit 2)],
           Node.assign 2 [Node.nameNode 2 "My_Var".data true] (Node.constLit 2),
           Node.nameNode 2 "My_Var".data true,
           Node.constLit 2] from by simp [walkQ, children]]
    simp

/-! ### C6: the mutable-default issue fires once per declaration -/

mutual

/-- Whether a `FunctionDef` node with line number `ℓ` occurs in the
subtree rooted at the node. -/
def hasFunDefAt (ℓ : Nat) : Node → Bool
  | .module b => hasFunDefAtL ℓ b
  | .classDef _ _ b => hasFunDefAtL ℓ b
  | .functionDef ℓ' _ _ d b => (ℓ' == ℓ) || hasFunDefAtL ℓ d || hasFunDefAtL ℓ b
  | .assign _ t v => hasFunDefAtL ℓ t || hasFunDefAt ℓ v
  | .nameNode _ _ _ => false
  | .dictLit _ => false
  | .listLit _ => false
  | .setLit _ => false
  | .constLit _ => false

def hasFunDefAtL (ℓ : Nat) : List Node → Bool
  | [] => false
  | n :: t => hasFunDefAt ℓ n || hasFunDefAtL ℓ t

end

theorem is_mutable_eq (l : List Node) :
    is_mutable l = if l.any isMutableLiteral then some s012msg else none := by
  induction l with
  | nil => simp [is_mutable]
  | cons x t ih => by_cases h : isMutableLiteral x <;> simp [is_mutable, h, ih]

theorem countMsg_add_any_other_line (m : IssueMap) {ℓ k : Nat} (o : Option Str)
    (msg : Str) (hk : ℓ ≠ k) :
    countMsg (add_issue_to_list m ℓ o) k msg = countMsg m k msg := by
  cases o with
  | none => rfl
  | some s => exact countMsg_add_some_other_line m s msg hk

theorem countMsg_argsPass_s012 (ℓ' : Nat) (args : List Str) (k : Nat) :
    ∀ m, countMsg (argsPass m ℓ' args) k s012msg = countMsg m k s012msg := by
  induction args with
  | nil => exact fun m => rfl
  | cons a t ih =>
    intro m
    rw [show argsPass m ℓ' (a :: t)
        = argsPass (add_issue_to_list m ℓ' (invalid_arg_var_names (some a) none)) ℓ' t
      from rfl, ih]
    rcases invalid_arg_cases a with h | h
    · rw [h]
      rfl
    · rw [h]
      exact countMsg_add_some_ne _ _ _ (s010msg_ne_s012 a)

theorem countMsg_storeNamePass_s012 (nodes : List Node) (k : Nat) :
    ∀ m, countMsg (storeNamePass m nodes) k s012msg = countMsg m k s012msg := by
  induction nodes with
  | nil => exact fun m => rfl
  | cons n t ih =>
    intro m
    cases n with
    | nameNode ℓ id isStore =>
      cases isStore with
      | true =>
        rw [show storeNamePass m (Node.nameNode ℓ id true :: t)
            = storeNamePass
                (add_issue_to_list m ℓ (invalid_arg_var_names none (some id))) t
          from rfl, ih]
        rcases invalid_var_cases id with h | h
        · rw [h]
          rfl
        · rw [h]
          exact countMsg_add_some_ne _ _ _ (s011msg_ne_s012 id)
      | false => exact ih _
    | module b => exact ih _
    | classDef ℓ nm b => exact ih _
    | functionDef ℓ nm args d b => exact ih _
    | assign ℓ t' v => exact ih _
    | dictLit ℓ => exact ih _
    | listLit ℓ => exact ih _
    | setLit ℓ => exact ih _
    | constLit ℓ => exact ih _

theorem visitList_s012_clean_sized (ℓ : Nat) :
    ∀ (sz : Nat) (ns : List Node), forestSize ns ≤ sz →
      hasFunDefAtL ℓ ns = false →
      ∀ m, countMsg (visitList m ns) ℓ s012msg = countMsg m ℓ s012msg := by
  intro sz
  induction sz with
  | zero =>
    intro ns hns hclean m
    match ns with
    | [] => simp [visitList]
    | n :: t =>
      rw [forestSize_cons] at hns
      have := nodeSize_pos n
      omega
  | succ sz ih =>
    intro ns hns hclean m
    match ns with
    | [] => simp [visitList]
    | n :: t =>
      rw [forestSize_cons] at hns
      have hcl : hasFunDefAt ℓ n = false ∧ hasFunDefAtL ℓ t = false := by
        rw [show hasFunDefAtL ℓ (n :: t) = (hasFunDefAt ℓ n || hasFunDefAtL ℓ t)
          from by simp [hasFunDefAtL]] at hclean
        exact Bool.or_eq_false_iff.mp hclean
      have hstep : countMsg (visit m n) ℓ s012msg = countMsg m ℓ s012msg := by
        cases n with
        | module body =>
          rw [show visit m (.module body) = visitList m body from by simp [visit]]
          refine ih body ?_ ?_ m
          · simp [nodeSize] at hns
            omega
          · rw [show hasFunDefAt ℓ (.module body) = hasFunDefAtL ℓ body
              from by simp [hasFunDefAt]] at hcl
            exact hcl.1
        | classDef ℓ' nm body =>
          rw [show visit m (.classDef ℓ' nm body)
              = visitList (add_issue_to_list m ℓ' (invalid_classname nm)) body from by
            simp [visit]]
          have hbody : hasFunDefAtL ℓ body = false := by
            rw [show hasFunDefAt ℓ (.classDef ℓ' nm body) = hasFunDefAtL ℓ body
              from by simp [hasFunDefAt]] at hcl
            exact hcl.1
          rw [ih body (by simp [nodeSize] at hns; omega) hbody]
          rcases invalid_classname_cases nm with h | h
          · rw [h]
            rfl
          · rw [h]
            exact countMsg_add_some_ne _ _ _ (s008msg_ne_s012 nm)
        | functionDef ℓ' nm args defaults body =>
          have hfd := hcl.1
          rw [show hasFunDefAt ℓ (.functionDef ℓ' nm args defaults body)
              = ((ℓ' == ℓ) || hasFunDefAtL ℓ defaults || hasFunDefAtL ℓ body)
            from by simp [hasFunDefAt]] at hfd
          have h1 : (ℓ' == ℓ) = false ∧ hasFunDefAtL ℓ defaults = false
              ∧ hasFunDefAtL ℓ body = false := by
            rcases Bool.or_eq_false_iff.mp hfd with ⟨h12, h3⟩
            rcases Bool.or_eq_false_iff.mp h12 with ⟨ha, hb⟩
            exact ⟨ha, hb, h3⟩
          have hne : ℓ' ≠ ℓ := by
            intro h
            rw [h] at h1
            simp at h1
          rw [show visit m (.functionDef ℓ' nm args defaults body)
              = visitList
                  (visitList
                    (add_issue_to_list
                      (storeNamePass
                        (argsPass (add_issue_to_list m ℓ' (invalid_function_name nm)) ℓ' args)
                        (walkQ [.functionDef ℓ' nm args defaults body]))
                      ℓ' (is_mutable defaults))
                    defaults)
                  body from by simp [visit]]
          rw [ih body (by simp [nodeSize] at hns; omega) h1.2.2,
              ih defaults (by simp [nodeSize] at hns; omega) h1.2.1,
              countMsg_add_any_other_line _ _ _ hne,
              countMsg_storeNamePass_s012,
              countMsg_argsPass_s012]
          rcases invalid_function_name_cases nm with h | h
          · rw [h]
            rfl
          · rw [h]
            exact countMsg_add_some_ne _ _ _ (s009msg_ne_s012 nm)
        | assign ℓ' targets value =>
          have hav : hasFunDefAtL ℓ targets = false ∧ hasFunDefAt ℓ value = false := by
            rw [show hasFunDefAt ℓ (.assign ℓ' targets value)
                = (hasFunDefAtL ℓ targets || hasFunDefAt ℓ value)
              from by simp [hasFunDefAt]] at hcl
            exact Bool.or_eq_false_iff.mp hcl.1
          rw [show visit m (.assign ℓ' targets value)
              = visit (visitList m targets) value from by simp [visit],
              show visit (visitList m targets) value
              = visitList (visitList m targets) [value] from by simp [visitList]]
          rw [ih [value] ?_ ?_, ih targets (by simp [nodeSize] at hns; omega) hav.1]
          · rw [forestSize_cons, forestSize_nil]
            simp [nodeSize] at hns
            omega
          · rw [show hasFunDefAtL ℓ [value] = (hasFunDefAt ℓ value || false)
              from by simp [hasFunDefAtL], hav.2]
            rfl
        | nameNode ℓ' id isStore =>
          rw [show visit m (.nameNode ℓ' id isStore) = m from by simp [visit]]
        | dictLit ℓ' =>
          rw [show visit m (.dictLit ℓ') = m from by simp [visit]]
        | listLit ℓ' =>
          rw [show visit m (.listLit ℓ') = m from by simp [visit]]
        | setLit ℓ' =>
          rw [show visit m (.setLit ℓ') = m from by simp [visit]]
        | constLit ℓ' =>
          rw [show visit m (.constLit ℓ') = m from by simp [visit]]
      rw [show visitList m (n :: t) = visitList (visit m n) t from by simp [visitList]]
      rw [ih t (by have := nodeSize_pos n; omega) hcl.2, hstep]

theorem visitList_s012_clean (ℓ : Nat) (ns : List Node)
    (h : hasFunDefAtL ℓ ns = false) (m : IssueMap) :
    countMsg (visitList m ns) ℓ s012msg = countMsg m ℓ s012msg :=
  visitList_s012_clean_sized ℓ (forestSize ns) ns (Nat.le_refl _) h m

/--
**C6.** For every function declaration whose defaults and body do not
contain another function declaration with the same line number, exactly
one mutable-default issue (S012) is recorded at the declaration's line
when at least one default expression is a dict, list, or set literal,
and none is recorded otherwise; several mutable defaults on the same
declaration still yield a single S012 issue.
-/
theorem C6_mutable_default_once (m : IssueMap) (ℓ : Nat) (nm : Str)
    (args : List Str) (defaults body : List Node)
    (hd : hasFunDefAtL ℓ defaults = false) (hb : hasFunDefAtL ℓ body = false) :
    countMsg (visit m (.functionDef ℓ nm args defaults body)) ℓ s012msg
      = countMsg m ℓ s012msg
        + (if defaults.any isMutableLiteral then 1 else 0) := by
  rw [show visit m (.functionDef ℓ nm args defaults body)
      = visitList
          (visitList
            (add_issue_to_list
              (storeNamePass
                (argsPass (add_issue_to_list m ℓ (invalid_function_name nm)) ℓ args)
                (walkQ [.functionDef ℓ nm args defaults body]))
              ℓ (is_mutable defaults))
            defaults)
          body from by simp [visit]]
  rw [visitList_s012_clean ℓ body hb, visitList_s012_clean ℓ defaults hd]
  rw [is_mutable_eq]
  by_cases hmut : defaults.any isMutableLiteral
  · rw [if_pos hmut, if_pos hmut,
        countMsg_add_self _ _ _ s012msg_nonempty,
        countMsg_storeNamePass_s012, countMsg_argsPass_s012]
    rcases invalid_function_name_cases nm with h | h
    · rw [h]
      rfl
    · rw [h, countMsg_add_some_ne _ _ _ (s009msg_ne_s012 nm)]
  · rw [if_neg hmut, if_neg hmut, countMsg_add_none,
        countMsg_storeNamePass_s012, countMsg_argsPass_s012]
    rcases invalid_function_name_cases nm with h | h
    · rw [h]
      rfl
    · rw [h, countMsg_add_some_ne _ _ _ (s009msg_ne_s012 nm)]
      rfl

/-- Witness for C6: `def f(x={}, y=[]):` — two mutable defaults on
line 1 yield exactly one S012 issue at line 1. -/
theorem C6_witness :
    hasFunDefAtL 1 [Node.dictLit 1, Node.listLit 1] = false
    ∧ hasFunDefAtL 1 ([] : List Node) = false
    ∧ countMsg (visit []
        (.functionDef 1 "f".data ["x".data, "y".data]
          [Node.dictLit 1, Node.listLit 1] [])) 1 s012msg
      = countMsg [] 1 s012msg
        + (if [Node.dictLit 1, Node.listLit 1].any isMutableLiteral then 1 else 0) := by
  have h1 : hasFunDefAtL 1 [Node.dictLit 1, Node.listLit 1] = false := by
    simp [hasFunDefAtL, hasFunDefAt]
  have h2 : hasFunDefAtL 1 ([] : List Node) = false := by
    simp [hasFunDefAtL]
  exact ⟨h1, h2,
    C6_mutable_default_once [] 1 "f".data ["x".data, "y".data]
      [Node.dictLit 1, Node.listLit 1] [] h1 h2⟩

/-! ### C10: nested functions re-walk their subtrees -/

theorem visitList_nil (m : IssueMap) : visitList m [] = m := by
  simp [visitList]

theorem visitList_cons (m : IssueMap) (n : Node) (t : List Node) :
    visitList m (n :: t) = visitList (visit m n) t := by
  simp [visitList]

theorem argsPass_nil (m : IssueMap) (ℓ : Nat) : argsPass m ℓ [] = m := rfl

theorem is_mutable_nil : is_mutable [] = none := rfl

theorem add_issue_none (m : IssueMap) (ℓ : Nat) :
    add_issue_to_list m ℓ none = m := rfl

/-- `k` nested `def`s (lines given by `fl`, all named `nm`) around a
single assignment `vid = ...` on line `aℓ`. -/
def nestFam (fl : Nat → Nat) (nm : Str) (aℓ : Nat) (vid : Str) : Nat → Node
  | 0 => .assign aℓ [.nameNode aℓ vid true] (.constLit aℓ)
  | k + 1 => .functionDef (fl k) nm [] [] [nestFam fl nm aℓ vid k]

/-- Walking the whole nested family and filtering for store-context
names performs exactly one `add_issue_to_list` for the single
assignment target, whatever the nesting depth. -/
theorem storeNamePass_nest (fl : Nat → Nat) (nm : Str) (aℓ : Nat) (vid : Str) :
    ∀ (k : Nat) (m : IssueMap),
      storeNamePass m (walkQ [nestFam fl nm aℓ vid k])
        = add_issue_to_list m aℓ (invalid_arg_var_names none (some vid)) := by
  intro k
  induction k with
  | zero =>
    intro m
    rw [show walkQ [nestFam fl nm aℓ vid 0]
        = [nestFam fl nm aℓ vid 0, Node.nameNode aℓ vid true, Node.constLit aℓ] from by
      simp [nestFam, walkQ, children]]
    rfl
  | succ k ih =>
    intro m
    rw [show walkQ [nestFam fl nm aℓ vid (k + 1)]
        = nestFam fl nm aℓ vid (k + 1) :: walkQ [nestFam fl nm aℓ vid k] from by
      conv_lhs => rw [show nestFam fl nm aℓ vid (k + 1)
          = Node.functionDef (fl k) nm [] [] [nestFam fl nm aℓ vid k] from rfl]
      rw [show walkQ [Node.functionDef (fl k) nm [] [] [nestFam fl nm aℓ vid k]]
          = Node.functionDef (fl k) nm [] [] [nestFam fl nm aℓ vid k]
            :: walkQ ([] ++ children
                (Node.functionDef (fl k) nm [] [] [nestFam fl nm aℓ vid k])) from by
        simp [walkQ]]
      simp [children]
      rfl]
    rw [show storeNamePass m (nestFam fl nm aℓ vid (k + 1) :: walkQ [nestFam fl nm aℓ vid k])
        = storeNamePass m (walkQ [nestFam fl nm aℓ vid k]) from rfl]
    exact ih m

/--
**C10.** For a simple store-context name inside `k` nested function
declarations, the variable-naming check is evaluated once per enclosing
function — each `visit_FunctionDef` walks its entire subtree, and
nested `FunctionDef`s are walked again when visited themselves — so a
non-snake_case assignment target nested `k` deep has the S011 issue
recorded `k` times for its line.
-/
theorem C10_s011_recorded_once_per_enclosing_function (k : Nat) (m : IssueMap)
    (fl : Nat → Nat) (nm : Str) (aℓ : Nat) (vid : Str)
    (h1 : vid ≠ []) (h2 : is_snakecase vid = false) :
    countMsg (visit m (nestFam fl nm aℓ vid k)) aℓ (s011msg vid)
      = countMsg m aℓ (s011msg vid) + k := by
  induction k generalizing m with
  | zero =>
    rw [show visit m (nestFam fl nm aℓ vid 0)
        = visit (visitList m [Node.nameNode aℓ vid true]) (Node.constLit aℓ) from by
      conv_lhs => rw [show nestFam fl nm aℓ vid 0
          = Node.assign aℓ [Node.nameNode aℓ vid true] (Node.constLit aℓ) from rfl]
      simp [visit]]
    rw [visitList_cons, show visit m (Node.nameNode aℓ vid true) = m from by simp [visit],
        visitList_nil, show visit m (Node.constLit aℓ) = m from by simp [visit]]
    rfl
  | succ k ih =>
    have hunfold : visit m (nestFam fl nm aℓ vid (k + 1))
        = visitList
            (visitList
              (add_issue_to_list
                (storeNamePass
                  (argsPass
                    (add_issue_to_list m (fl k) (invalid_function_name nm)) (fl k) [])
                  (walkQ [nestFam fl nm aℓ vid (k + 1)]))
                (fl k) (is_mutable []))
              [])
            [nestFam fl nm aℓ vid k] := by
      conv_lhs => rw [show nestFam fl nm aℓ vid (k + 1)
          = Node.functionDef (fl k) nm [] [] [nestFam fl nm aℓ vid k] from rfl]
      rw [show visit m (Node.functionDef (fl k) nm [] [] [nestFam fl nm aℓ vid k])
          = visitList
              (visitList
                (add_issue_to_list
                  (storeNamePass
                    (argsPass
                      (add_issue_to_list m (fl k) (invalid_function_name nm)) (fl k) [])
                    (walkQ [Node.functionDef (fl k) nm [] [] [nestFam fl nm aℓ vid k]]))
                  (fl k) (is_mutable []))
                [])
              [nestFam fl nm aℓ vid k] from by simp [visit]]
      rfl
    rw [hunfold, argsPass_nil, is_mutable_nil, add_issue_none, visitList_nil,
        visitList_cons, visitList_nil]
    rw [show storeNamePass (add_issue_to_list m (fl k) (invalid_function_name nm))
          (walkQ [nestFam fl nm aℓ vid (k + 1)])
        = add_issue_to_list (add_issue_to_list m (fl k) (invalid_function_name nm))
            aℓ (invalid_arg_var_names none (some vid))
      from storeNamePass_nest fl nm aℓ vid (k + 1) _]
    rw [invalid_var_eq vid h1 h2, ih]
    rw [countMsg_add_self _ _ _ (s011msg_nonempty vid)]
    rcases invalid_function_name_cases nm with h | h
    · rw [h, add_issue_none]
      omega
    · rw [h, countMsg_add_some_ne _ _ _ (s009msg_ne_s011 nm vid)]
      omega

/-- Witness for C10 at depth 2: `My_Var = ...` (line 3) inside a
function (line 2) inside another function (line 1) receives the S011
issue twice. -/
theorem C10_witness :
    "My_Var".data ≠ ([] : Str)
    ∧ is_snakecase "My_Var".data = false
    ∧ countMsg (visit [] (nestFam (fun i => i + 1) "f".data 3 "My_Var".data 2))
        3 (s011msg "My_Var".data)
      = countMsg [] 3 (s011msg "My_Var".data) + 2 :=
  ⟨by decide, by decide,
    C10_s011_recorded_once_per_enclosing_function 2 [] (fun i => i + 1) "f".data 3
      "My_Var".data (by decide) (by decide)⟩

/-! ### The orchestrator (`FileStaticCodeAnalyzer`) -/

/-- The decimal digit characters `'0'..'9'`, as `str(int)` renders
them. -/
def digitChar (d : Nat) : Char := Char.ofNat (48 + d)

/-- Decimal rendering of a natural number (the f-string's rendering of
`self.line_index`), accumulator style; fuel-indexed so the definition is
structural and kernel-evaluable.  `natDigits` supplies enough fuel for
every input. -/
def natDigitsAux : Nat → Nat → Str → Str
  | 0, _, acc => acc
  | fuel + 1, n, acc =>
    if n < 10 then digitChar n :: acc
    else natDigitsAux fuel (n / 10) (digitChar (n % 10) :: acc)

def natDigits (n : Nat) : Str := natDigitsAux (n + 1) n []

theorem digitChar_is_digit (d : Nat) (h : d < 10) :
    '0' ≤ digitChar d ∧ digitChar d ≤ '9' := by
  interval_cases d <;> exact (by decide)

theorem natDigitsAux_digits :
    ∀ (fuel n : Nat) (acc : Str), (∀ c ∈ acc, '0' ≤ c ∧ c ≤ '9') →
      ∀ c ∈ natDigitsAux fuel n acc, '0' ≤ c ∧ c ≤ '9' := by
  intro fuel
  induction fuel with
  | zero => exact fun n acc hacc c hc => hacc c hc
  | succ fuel ih =>
    intro n acc hacc c hc
    rw [natDigitsAux] at hc
    split at hc
    · rename_i hn
      rcases List.mem_cons.mp hc with rfl | hmem
      · exact digitChar_is_digit n hn
      · exact hacc c hmem
    · refine ih (n / 10) _ ?_ c hc
      intro c' hc'
      rcases List.mem_cons.mp hc' with rfl | hmem
      · exact digitChar_is_digit (n % 10) (Nat.mod_lt _ (by omega))
      · exact hacc c' hmem

theorem natDigits_no_percent (n : Nat) : '%' ∉ natDigits n := by
  intro h
  have := natDigitsAux_digits (n + 1) n [] (by simp) '%' h
  exact absurd this.1 (by decide)

/-- Python `s.replace(old, new)` for a non-empty `old`: scan left to
right, replacing each (non-overlapping) occurrence of `old` and never
re-scanning the inserted `new`.  Fuel-indexed (one unit per character
consumed) so the definition is structural; `pyReplace` supplies enough
fuel.  (Python's special case `old = ''` is never exercised by the
analyzer, whose `old` is always `'%msg%'`; the guard makes an empty
`old` replace nothing.) -/
def pyReplaceFuel (old new : Str) : Nat → Str → Str
  | _, [] => []
  | 0, s => s
  | fuel + 1, c :: rest =>
    if old.isPrefixOf (c :: rest) && !old.isEmpty then
      new ++ pyReplaceFuel old new fuel ((c :: rest).drop old.length)
    else
      c :: pyReplaceFuel old new fuel rest

def pyReplace (old new s : Str) : Str := pyReplaceFuel old new s.length s

theorem pyReplaceFuel_congr (old new : Str) :
    ∀ (f₁ f₂ : Nat) (s : Str), s.length ≤ f₁ → s.length ≤ f₂ →
      pyReplaceFuel old new f₁ s = pyReplaceFuel old new f₂ s := by
  intro f₁
  induction f₁ with
  | zero =>
    intro f₂ s h1 h2
    match s with
    | [] => cases f₂ <;> rfl
    | c :: rest => simp at h1
  | succ f₁ ih =>
    intro f₂ s h1 h2
    match s with
    | [] => cases f₂ <;> rfl
    | c :: rest =>
      match f₂ with
      | 0 => simp at h2
      | g + 1 =>
        show (if old.isPrefixOf (c :: rest) && !old.isEmpty then
                new ++ pyReplaceFuel old new f₁ ((c :: rest).drop old.length)
              else c :: pyReplaceFuel old new f₁ rest)
            = (if old.isPrefixOf (c :: rest) && !old.isEmpty then
                new ++ pyReplaceFuel old new g ((c :: rest).drop old.length)
              else c :: pyReplaceFuel old new g rest)
        by_cases hg : (old.isPrefixOf (c :: rest) && !old.isEmpty) = true
        · rw [if_pos hg, if_pos hg]
          congr 1
          have hone : 1 ≤ old.length := by
            rcases (Bool.and_eq_true _ _).mp hg with ⟨-, hne⟩
            cases old with
            | nil => simp at hne
            | cons o ot => simp
          have hlen : ((c :: rest).drop old.length).length ≤ f₁ := by
            simp at h1 ⊢
            omega
          have hlen' : ((c :: rest).drop old.length).length ≤ g := by
            simp at h2 ⊢
            omega
          exact ih g _ hlen hlen'
        · rw [if_neg hg, if_neg hg]
          congr 1
          refine ih g rest ?_ ?_
          · simp at h1
            omega
          · simp at h2
            omega

theorem pyReplace_cons (old new : Str) (c : Char) (rest : Str) :
    pyReplace old new (c :: rest)
      = if old.isPrefixOf (c :: rest) && !old.isEmpty then
          new ++ pyReplace old new ((c :: rest).drop old.length)
        else c :: pyReplace old new rest := by
  show (if old.isPrefixOf (c :: rest) && !old.isEmpty then
          new ++ pyReplaceFuel old new rest.length ((c :: rest).drop old.length)
        else c :: pyReplaceFuel old new rest.length rest) = _
  by_cases hg : (old.isPrefixOf (c :: rest) && !old.isEmpty) = true
  · rw [if_pos hg, if_pos hg]
    congr 1
    have hone : 1 ≤ old.length := by
      rcases (Bool.and_eq_true _ _).mp hg with ⟨-, hne⟩
      cases old with
      | nil => simp at hne
      | cons o ot => simp
    exact pyReplaceFuel_congr old new rest.length _ _
      (by simp; omega) (Nat.le_refl _)
  · rw [if_neg hg, if_neg hg]
    rfl

/-! Index-level helpers for reasoning about occurrences. -/

theorem take_append_le {α : Type} (l₁ l₂ : List α) (n : Nat) (h : n ≤ l₁.length) :
    (l₁ ++ l₂).take n = l₁.take n := by
  induction l₁ generalizing n with
  | nil =>
    have : n = 0 := Nat.le_zero.mp h
    subst this
    rfl
  | cons a t ih =>
    cases n with
    | zero => rfl
    | succ n =>
      simp only [List.cons_append, List.take_succ_cons]
      rw [ih n (by simpa using h)]

theorem drop_append_le {α : Type} (l₁ l₂ : List α) (n : Nat) (h : n ≤ l₁.length) :
    (l₁ ++ l₂).drop n = l₁.drop n ++ l₂ := by
  induction l₁ generalizing n with
  | nil =>
    have : n = 0 := Nat.le_zero.mp h
    subst this
    rfl
  | cons a t ih =>
    cases n with
    | zero => rfl
    | succ n =>
      simp only [List.cons_append, List.drop_succ_cons]
      exact ih n (by simpa using h)

theorem get?_append_lt {α : Type} (l₁ l₂ : List α) (n : Nat) (h : n < l₁.length) :
    (l₁ ++ l₂).get? n = l₁.get? n := by
  induction l₁ generalizing n with
  | nil => cases h
  | cons a t ih =>
    cases n with
    | zero => rfl
    | succ n => exact ih n (Nat.lt_of_succ_lt_succ h)

theorem get?_append_ge {α : Type} (l₁ l₂ : List α) (n : Nat) (h : l₁.length ≤ n) :
    (l₁ ++ l₂).get? n = l₂.get? (n - l₁.length) := by
  induction l₁ generalizing n with
  | nil => simp
  | cons a t ih =>
    cases n with
    | zero => simp at h
    | succ n =>
      show (t ++ l₂).get? n = l₂.get? (n + 1 - (t.length + 1))
      rw [ih n (by simpa using h)]
      congr 1
      omega

theorem get?_drop_eq {α : Type} (l : List α) (n m : Nat) :
    (l.drop n).get? m = l.get? (n + m) := by
  induction l generalizing n with
  | nil => simp
  | cons a t ih =>
    cases n with
    | zero => simp
    | succ n =>
      rw [show n + 1 + m = (n + m) + 1 from by omega]
      exact ih n

theorem mem_of_get?_eq {α : Type} (l : List α) (n : Nat) (a : α)
    (h : l.get? n = some a) : a ∈ l := by
  induction l generalizing n with
  | nil => cases h
  | cons b t ih =>
    cases n with
    | zero =>
      rw [Option.some.inj h]
      exact List.mem_cons_self _ _
    | succ n => exact List.mem_cons_of_mem _ (ih n h)

theorem prefix_of_append_of_le {α : Type} (l a b : List α) (h : l <+: a ++ b)
    (hl : l.length ≤ a.length) : l <+: a := by
  rw [List.prefix_iff_eq_take] at h ⊢
  calc l = (a ++ b).take l.length := h
    _ = a.take l.length := take_append_le a b l.length hl

theorem pySubstring_of_isPrefixOf_drop (needle s : Str) (i : Nat)
    (h : needle.isPrefixOf (s.drop i) = true) : pySubstring needle s = true := by
  induction s generalizing i with
  | nil =>
    cases needle with
    | nil => rfl
    | cons c t => simp [List.isPrefixOf] at h
  | cons c t ih =>
    cases i with
    | zero =>
      show (needle.isPrefixOf (c :: t) || pySubstring needle t) = true
      simp only [List.drop_zero] at h
      simp [h]
    | succ i =>
      show (needle.isPrefixOf (c :: t) || pySubstring needle t) = true
      rw [ih i h]
      simp

/-- The one `str.replace` fact the analyzer needs: when `old` occurs
nowhere before the final, intended occurrence, the replacement is plain
concatenation. -/
theorem pyReplace_tail (old new : Str) (hold : old ≠ []) :
    ∀ s : Str, (∀ i, i < s.length → old.isPrefixOf ((s ++ old).drop i) = false) →
      pyReplace old new (s ++ old) = s ++ new := by
  intro s
  induction s with
  | nil =>
    intro hocc
    cases old with
    | nil => exact absurd rfl hold
    | cons o ot =>
      rw [List.nil_append, pyReplace_cons]
      have hguard : ((o :: ot).isPrefixOf (o :: ot) && !(o :: ot).isEmpty) = true := by
        rw [List.isPrefixOf_iff_prefix.mpr (List.prefix_refl _)]
        rfl
      rw [if_pos hguard, List.drop_length,
          show pyReplace (o :: ot) new [] = [] from rfl,
          List.append_nil, List.nil_append]
  | cons c s' ih =>
    intro hocc
    rw [List.cons_append, pyReplace_cons]
    have h0 : old.isPrefixOf (c :: (s' ++ old)) = false := by
      have := hocc 0 (by simp)
      simpa using this
    rw [h0]
    simp only [Bool.false_and, Bool.false_eq_true, if_false]
    rw [ih (fun i hi => by
      have := hocc (i + 1) (by simpa using Nat.succ_lt_succ hi)
      simpa using this)]
    rfl

/-- The fixed text the f-string wraps around the rendered line index:
`": Line "`, the digits, `": "`. -/
def lineTag (idx : Nat) : Str :=
  ": Line ".data ++ natDigits idx ++ ": ".data

/-- `msg_template = f"{self.path}: Line {self.line_index}: %msg%"`. -/
def msgTemplate (path : Str) (idx : Nat) : Str :=
  path ++ lineTag idx ++ "%msg%".data

/-- Spec-side (§6 Output): the literal diagnostic form
`<path>: Line <line_number>: <issue>`. -/
def mkMsg (path : Str) (idx : Nat) (msg : Str) : Str :=
  path ++ lineTag idx ++ msg

/-- `FileStaticCodeAnalyzer.log_issues`: one printed line per issue,
each obtained as `msg_template.replace('%msg%', issue)` — note that
`str.replace` substitutes *every* occurrence of `'%msg%'`, including
any inside the path. -/
def log_issues (path : Str) (idx : Nat) (issues : List Str) : List Str :=
  issues.map (fun issue => pyReplace "%msg%".data issue (msgTemplate path idx))

theorem lineTag_no_percent (idx : Nat) : '%' ∉ lineTag idx := by
  intro h
  rw [lineTag] at h
  rcases List.mem_append.mp h with h1 | h1
  · rcases List.mem_append.mp h1 with h2 | h2
    · exact absurd h2 (by decide)
    · exact natDigits_no_percent idx h2
  · exact absurd h1 (by decide)

theorem lineTag_length_pos (idx : Nat) : 0 < (lineTag idx).length := by
  rw [lineTag]
  simp [List.length_append]

theorem lineTag_get0 (idx : Nat) : (lineTag idx).get? 0 = some ':' := by
  rw [lineTag, List.append_assoc,
      get?_append_lt _ _ 0 (by decide)]
  rfl

/-- In the template `path ++ lineTag ++ "%msg%"`, no occurrence of
`"%msg%"` starts before the trailing placeholder, provided the path
itself does not contain `"%msg%"`: an occurrence cannot sit inside the
path (hypothesis), cannot straddle the junction (the junction character
`':'` is not among `%`, `m`, `s`, `g`), and cannot start inside the tag
(the tag contains no `'%'`). -/
theorem template_no_early_occurrence (path : Str) (idx : Nat)
    (hpath : pySubstring "%msg%".data path = false) :
    ∀ i, i < (path ++ lineTag idx).length →
      ("%msg%".data).isPrefixOf
        (((path ++ lineTag idx) ++ "%msg%".data).drop i) = false := by
  intro i hi
  cases hb : ("%msg%".data).isPrefixOf
      (((path ++ lineTag idx) ++ "%msg%".data).drop i) with
  | false => rfl
  | true =>
    exfalso
    obtain ⟨r, hr⟩ : "%msg%".data <+: (((path ++ lineTag idx) ++ "%msg%".data).drop i) :=
      List.isPrefixOf_iff_prefix.mp hb
    have hget : ∀ j, j < 5 →
        (((path ++ lineTag idx) ++ "%msg%".data)).get? (i + j)
          = ("%msg%".data).get? j := by
      intro j hj
      rw [← get?_drop_eq, ← hr]
      exact get?_append_lt _ _ j (by simpa using hj)
    have hX : ((path ++ lineTag idx) ++ "%msg%".data)
        = path ++ (lineTag idx ++ "%msg%".data) := List.append_assoc _ _ _
    rw [List.length_append] at hi
    by_cases hip : i < path.length
    · by_cases hfit : i + 5 ≤ path.length
      · -- the occurrence would lie wholly inside the path
        have hdrop : (((path ++ lineTag idx) ++ "%msg%".data)).drop i
            = path.drop i ++ (lineTag idx ++ "%msg%".data) := by
          rw [hX]
          exact drop_append_le _ _ _ (Nat.le_of_lt hip)
        have hpre3 : "%msg%".data <+: (path.drop i ++ (lineTag idx ++ "%msg%".data)) := by
          rw [← hdrop]
          exact ⟨r, hr⟩
        have hpfx2 : "%msg%".data <+: path.drop i := by
          refine prefix_of_append_of_le _ _ _ hpre3 ?_
          simp only [List.length_drop]
          have h5 : ("%msg%".data).length = 5 := by decide
          rw [h5]
          omega
        have := pySubstring_of_isPrefixOf_drop "%msg%".data path i
          (List.isPrefixOf_iff_prefix.mpr hpfx2)
        rw [hpath] at this
        simp at this
      · -- the occurrence would straddle the path / tag junction
        have hXat : (((path ++ lineTag idx) ++ "%msg%".data)).get?
              (i + (path.length - i)) = some ':' := by
          rw [hX, show i + (path.length - i) = path.length from by omega,
              get?_append_ge _ _ _ (Nat.le_refl _), Nat.sub_self,
              get?_append_lt _ _ 0 (lineTag_length_pos idx)]
          exact lineTag_get0 idx
        have hcontra := hget (path.length - i) (by omega)
        rw [hXat] at hcontra
        have hj1 : 1 ≤ path.length - i := by omega
        have hj4 : path.length - i ≤ 4 := by omega
        set j := path.length - i with hjdef
        interval_cases j <;> exact absurd hcontra (by decide)
    · -- the occurrence would start inside the tag
      have h0 := hget 0 (by omega)
      rw [Nat.add_zero] at h0
      have htag : (((path ++ lineTag idx) ++ "%msg%".data)).get? i
          = (lineTag idx).get? (i - path.length) := by
        rw [hX, get?_append_ge _ _ _ (by omega)]
        exact get?_append_lt _ _ _ (by omega)
      rw [htag] at h0
      exact lineTag_no_percent idx
        (mem_of_get?_eq _ _ _ (by rw [h0]; rfl))

/-- Bridging `str.replace` and the spec's literal format: when the path
does not contain `'%msg%'`, the emitted line is exactly
`<path>: Line <n>: <issue>`. -/
theorem log_line_eq_mkMsg (path : Str) (idx : Nat) (issue : Str)
    (hpath : pySubstring "%msg%".data path = false) :
    pyReplace "%msg%".data issue (msgTemplate path idx) = mkMsg path idx issue := by
  have hsplit : msgTemplate path idx = (path ++ lineTag idx) ++ "%msg%".data := by
    rw [msgTemplate, List.append_assoc]
  rw [hsplit,
      pyReplace_tail "%msg%".data issue (by decide) (path ++ lineTag idx)
        (template_no_early_occurrence path idx hpath),
      mkMsg, List.append_assoc]

/-- `FileStaticCodeAnalyzer.line_analyze_handler`: a truthy (non-empty)
line is analyzed — its lexical issues are printed first, then any AST
issues recorded for this line number — and the blank counter resets to
0; a blank line is skipped and only increments the counter.  Returns
the new blank-line counter and the printed diagnostics. -/
def line_analyze_handler (path : Str) (m : IssueMap) (idx blanks : Nat)
    (line : Str) : Nat × List Str :=
  if !line.isEmpty then
    (0,
      log_issues path idx (Line.get_issues (mkLine line idx blanks))
        ++ (match get_line_issues m idx with
            | some msgs => log_issues path idx msgs
            | none => []))
  else
    (blanks + 1, [])

/-- The loop of `analyze_file`: 1-based line numbering, threading the
blank-line counter through `line_analyze_handler`. -/
def analyze_lines (path : Str) (m : IssueMap) : Nat → Nat → List Str → List Str
  | _, _, [] => []
  | idx, blanks, line :: rest =>
    (line_analyze_handler path m idx blanks line).2
      ++ analyze_lines path m (idx + 1) (line_analyze_handler path m idx blanks line).1 rest

/-- The error surfaced when `ast.parse` rejects the file's text. -/
inductive AnalyzerError where
  | parseError

/-- The `with FileStaticCodeAnalyzer(path_str) as analyzer:
analyzer.analyze_file()` protocol.  `analyze_file` parses the whole
text *first*; only on success does it visit the tree and then stream
the lines.  `parseResult` stands for the outcome of the external
parser (`ast.parse`).  On failure the exception propagates out of
`analyze_file` before any line is visited or printed, and the `with`
statement's `__exit__` still closes the file (returning `False`, so
the error reaches the caller).  The result triple is (printed
diagnostics, outcome surfaced to the caller, handle closed). -/
def runAnalyzer (parseResult : Option Node) (path : Str) (lines : List Str) :
    List Str × Except AnalyzerError Unit × Bool :=
  match parseResult with
  | none => ([], Except.error AnalyzerError.parseError, true)
  | some tree => (analyze_lines path (visit [] tree) 1 0 lines, Except.ok (), true)

/-- Spec-side (§3 AnalysisReport, §6 Output): the per-file sequence of
(line_number, issue) pairs — for each non-blank line, in line order,
the lexical (LineChecker) issues first, then the tree (TreeChecker)
issues recorded for that line number; a blank line yields nothing and
increments the blank counter of the next non-blank line. -/
def reportPairs (m : IssueMap) : Nat → Nat → List Str → List (Nat × Str)
  | _, _, [] => []
  | idx, blanks, line :: rest =>
    if !line.isEmpty then
      ((Line.get_issues (mkLine line idx blanks) ++ lookupIssues m idx).map
        (fun s => (idx, s)))
        ++ reportPairs m (idx + 1) 0 rest
    else
      reportPairs m (idx + 1) (blanks + 1) rest

theorem analyze_lines_eq_reportPairs (path : Str) (m : IssueMap)
    (hpath : pySubstring "%msg%".data path = false) :
    ∀ (lines : List Str) (idx blanks : Nat),
      analyze_lines path m idx blanks lines
        = (reportPairs m idx blanks lines).map (fun p => mkMsg path p.1 p.2) := by
  have hlog : ∀ (idx : Nat) (issues : List Str),
      log_issues path idx issues = issues.map (fun issue => mkMsg path idx issue) := by
    intro idx issues
    unfold log_issues
    rw [funext (fun issue => log_line_eq_mkMsg path idx issue hpath)]
  intro lines
  induction lines with
  | nil => intro idx blanks; rfl
  | cons line rest ih =>
    intro idx blanks
    by_cases h : line.isEmpty
    · rw [show analyze_lines path m idx blanks (line :: rest)
          = (line_analyze_handler path m idx blanks line).2
            ++ analyze_lines path m (idx + 1)
                (line_analyze_handler path m idx blanks line).1 rest from by
        simp [analyze_lines]]
      rw [show line_analyze_handler path m idx blanks line = (blanks + 1, []) from by
        simp [line_analyze_handler, h]]
      rw [show reportPairs m idx blanks (line :: rest)
          = reportPairs m (idx + 1) (blanks + 1) rest from by
        simp [reportPairs, h]]
      simpa using ih (idx + 1) (blanks + 1)
    · rw [show analyze_lines path m idx blanks (line :: rest)
          = (line_analyze_handler path m idx blanks line).2
            ++ analyze_lines path m (idx + 1)
                (line_analyze_handler path m idx blanks line).1 rest from by
        simp [analyze_lines]]
      have hne : (!line.isEmpty) = true := by
        simp [h]
      rw [show line_analyze_handler path m idx blanks line
          = (0,
              log_issues path idx (Line.get_issues (mkLine line idx blanks))
                ++ (match get_line_issues m idx with
                    | some msgs => log_issues path idx msgs
                    | none => [])) from by
        simp [line_analyze_handler, hne]]
      rw [show reportPairs m idx blanks (line :: rest)
          = ((Line.get_issues (mkLine line idx blanks) ++ lookupIssues m idx).map
              (fun s => (idx, s)))
              ++ reportPairs m (idx + 1) 0 rest from by
        simp [reportPairs, hne]]
      show log_issues path idx (Line.get_issues (mkLine line idx blanks))
            ++ (match get_line_issues m idx with
                | some msgs => log_issues path idx msgs
                | none => [])
            ++ analyze_lines path m (idx + 1) 0 rest = _
      simp only [hlog, List.map_append, List.map_map]
      rw [ih (idx + 1) 0]
      congr 1
      congr 1
      cases hast : get_line_issues m idx with
      | none =>
        rw [show lookupIssues m idx = [] from by rw [lookupIssues, hast]; rfl]
        rfl
      | some msgs =>
        rw [show lookupIssues m idx = msgs from by rw [lookupIssues, hast]; rfl]
        rfl

theorem reportPairs_ge (m : IssueMap) :
    ∀ (lines : List Str) (idx blanks : Nat) (p : Nat × Str),
      p ∈ reportPairs m idx blanks lines → idx ≤ p.1 := by
  intro lines
  induction lines with
  | nil => intro idx blanks p hp; cases hp
  | cons line rest ih =>
    intro idx blanks p hp
    by_cases h : line.isEmpty
    · rw [show reportPairs m idx blanks (line :: rest)
          = reportPairs m (idx + 1) (blanks + 1) rest from by simp [reportPairs, h]] at hp
      have := ih (idx + 1) (blanks + 1) p hp
      omega
    · have hne : (!line.isEmpty) = true := by simp [h]
      rw [show reportPairs m idx blanks (line :: rest)
          = ((Line.get_issues (mkLine line idx blanks) ++ lookupIssues m idx).map
              (fun s => (idx, s)))
              ++ reportPairs m (idx + 1) 0 rest from by simp [reportPairs, hne]] at hp
      rcases List.mem_append.mp hp with h1 | h1
      · obtain ⟨s, -, rfl⟩ := List.mem_map.mp h1
        exact Nat.le_refl _
      · have := ih (idx + 1) 0 p h1
        omega

theorem pairwise_const_fst (idx : Nat) (l : List Str) :
    List.Pairwise (fun p q : Nat × Str => p.1 ≤ q.1) (l.map (fun s => (idx, s))) := by
  induction l with
  | nil => exact List.Pairwise.nil
  | cons a t ih =>
    rw [List.map_cons]
    refine List.Pairwise.cons ?_ ih
    intro q hq
    obtain ⟨s, -, rfl⟩ := List.mem_map.mp hq
    exact Nat.le_refl _

theorem reportPairs_sorted (m : IssueMap) :
    ∀ (lines : List Str) (idx blanks : Nat),
      List.Pairwise (fun p q : Nat × Str => p.1 ≤ q.1)
        (reportPairs m idx blanks lines) := by
  intro lines
  induction lines with
  | nil => intro idx blanks; exact List.Pairwise.nil
  | cons line rest ih =>
    intro idx blanks
    by_cases h : line.isEmpty
    · rw [show reportPairs m idx blanks (line :: rest)
          = reportPairs m (idx + 1) (blanks + 1) rest from by simp [reportPairs, h]]
      exact ih (idx + 1) (blanks + 1)
    · have hne : (!line.isEmpty) = true := by simp [h]
      rw [show reportPairs m idx blanks (line :: rest)
          = ((Line.get_issues (mkLine line idx blanks) ++ lookupIssues m idx).map
              (fun s => (idx, s)))
              ++ reportPairs m (idx + 1) 0 rest from by simp [reportPairs, hne]]
      rw [List.pairwise_append]
      refine ⟨pairwise_const_fst idx _, ih (idx + 1) 0, ?_⟩
      intro p hp q hq
      obtain ⟨s, -, rfl⟩ := List.mem_map.mp hp
      have := reportPairs_ge m rest (idx + 1) 0 q hq
      omega

/--
**C1 counterexample.** The claim's format guarantee fails for a path
containing the literal `'%msg%'`: `log_issues` emits
`msg_template.replace('%msg%', issue)`, and `str.replace` also rewrites
the `'%msg%'` inside the path portion of the template, so for the file
`%msg%` containing the single line `x = 1;` the emitted diagnostic is
`S003 ...: Line 1: S003 ...` rather than `%msg%: Line 1: S003 ...`.
-/
theorem C1_counterexample :
    ¬ (((runAnalyzer (some (Node.module [])) "%msg%".data ["x = 1;".data]).1
          = (reportPairs (visit [] (Node.module [])) 1 0 ["x = 1;".data]).map
              (fun p => mkMsg "%msg%".data p.1 p.2))
        ∧ List.Pairwise (fun p q : Nat × Str => p.1 ≤ q.1)
            (reportPairs (visit [] (Node.module [])) 1 0 ["x = 1;".data])) := by
  rw [show (runAnalyzer (some (Node.module [])) "%msg%".data ["x = 1;".data]).1
      = analyze_lines "%msg%".data (visit [] (Node.module [])) 1 0 ["x = 1;".data]
    from rfl]
  rw [show visit ([] : IssueMap) (Node.module []) = ([] : IssueMap) from by
    simp [visit, visitList]]
  intro h
  exact absurd h.1 (by decide)

/--
**C1 (amended).** For every file whose path does not contain the
substring `'%msg%'` and whose text parses successfully, each reported
issue is emitted as exactly one diagnostic line
`<path>: Line <line_number>: <issue_code> <message>` (the image of the
spec-side report-pair sequence under the template), the diagnostics
appear in ascending line-number order, and within a line the lexical
(LineChecker) issues precede the tree (TreeChecker) issues — the shape
`reportPairs` prescribes per line.  (For a path containing `'%msg%'`
the `str.replace` call also rewrites the path portion of the template,
see `C1_counterexample`.)
-/
theorem C1_amended_report_format_and_order (path : Str) (tree : Node)
    (lines : List Str) (hpath : pySubstring "%msg%".data path = false) :
    (runAnalyzer (some tree) path lines).1
      = (reportPairs (visit [] tree) 1 0 lines).map (fun p => mkMsg path p.1 p.2)
    ∧ List.Pairwise (fun p q : Nat × Str => p.1 ≤ q.1)
        (reportPairs (visit [] tree) 1 0 lines) :=
  ⟨analyze_lines_eq_reportPairs path (visit [] tree) hpath lines 1 0,
   reportPairs_sorted (visit [] tree) lines 1 0⟩

/-- Witness for the amended C1 at the ordinary path `file.py`. -/
theorem C1_amended_witness :
    pySubstring "%msg%".data "file.py".data = false
    ∧ ((runAnalyzer (some (Node.module [])) "file.py".data ["x = 1;".data]).1
        = (reportPairs (visit [] (Node.module [])) 1 0 ["x = 1;".data]).map
            (fun p => mkMsg "file.py".data p.1 p.2)
      ∧ List.Pairwise (fun p q : Nat × Str => p.1 ≤ q.1)
          (reportPairs (visit [] (Node.module [])) 1 0 ["x = 1;".data])) :=
  ⟨by decide,
   C1_amended_report_format_and_order "file.py".data (Node.module [])
     ["x = 1;".data] (by decide)⟩

/--
**C2.** For every file whose text does not parse, the orchestrator
surfaces a `ParseError`, emits zero diagnostics (parsing happens before
any line is visited or printed), and the file handle is closed on this
exit path.
-/
theorem C2_parse_error_all_or_nothing (path : Str) (lines : List Str) :
    runAnalyzer none path lines
      = ([], Except.error AnalyzerError.parseError, true) := rfl

/--
**C7.** A line with no characters yields no issues and only increments
the blank-line counter; the counter resets to 0 after every non-blank
line; and a non-blank line yields the excess-blank-lines issue (S006)
iff more than two consecutive blank lines immediately precede it (the
running counter passed to the `Line` is greater than two).
-/
theorem C7_blank_line_discipline (path : Str) (m : IssueMap) (idx blanks : Nat) :
    line_analyze_handler path m idx blanks [] = (blanks + 1, [])
    ∧ (∀ line : Str, line ≠ [] → (line_analyze_handler path m idx blanks line).1 = 0)
    ∧ (∀ line : Str, line ≠ [] →
        (s006msg ∈ Line.get_issues (mkLine line idx blanks) ↔ 2 < blanks)) := by
  refine ⟨rfl, ?_, ?_⟩
  · intro line h
    have hne : (!line.isEmpty) = true := by
      cases line with
      | nil => cases h rfl
      | cons c t => rfl
    rw [show line_analyze_handler path m idx blanks line
        = (0,
            log_issues path idx (Line.get_issues (mkLine line idx blanks))
              ++ (match get_line_issues m idx with
                  | some msgs => log_issues path idx msgs
                  | none => [])) from by
      simp [line_analyze_handler, hne]]
  · intro line h
    rw [Line.get_issues, pyFilterTruthy_mem]
    constructor
    · rintro ⟨hmem, -⟩
      simp only [List.mem_cons, List.not_mem_nil, or_false] at hmem
      rcases hmem with hc | hc | hc | hc | hc | hc | hc
      · exact absurd (invalid_length_eq_some.mp hc.symm).2 (by decide)
      · exact absurd (invalid_indentation_eq_some.mp hc.symm).2 (by decide)
      · exact absurd (ends_with_semicolon_eq_some.mp hc.symm).2 (by decide)
      · exact absurd (invalid_inline_comment_spacing_eq_some.mp hc.symm).2 (by decide)
      · exact absurd (todo_in_comment_eq_some.mp hc.symm).2 (by decide)
      · have := (invalid_preceding_blanklines_eq_some.mp hc.symm).1
        rwa [mkLine_blanks] at this
      · obtain ⟨k, n, -, -, he⟩ := invalid_spaces_def_class_eq_some.mp hc.symm
        exact absurd he.symm (s007msg_ne_s006 k)
    · intro hb
      refine ⟨?_, by decide⟩
      simp only [List.mem_cons]
      refine Or.inr (Or.inr (Or.inr (Or.inr (Or.inr (Or.inl ?_)))))
      exact (invalid_preceding_blanklines_eq_some.mpr ⟨by rwa [mkLine_blanks], rfl⟩).symm

/-- Witness for C7 at `blanks = 3`, line `"x"`. -/
theorem C7_witness :
    line_analyze_handler "p".data [] 1 3 [] = (3 + 1, [])
    ∧ (line_analyze_handler "p".data [] 1 3 "x".data).1 = 0
    ∧ (s006msg ∈ Line.get_issues (mkLine "x".data 1 3) ↔ 2 < 3) :=
  ⟨(C7_blank_line_discipline "p".data [] 1 3).1,
   (C7_blank_line_discipline "p".data [] 1 3).2.1 "x".data (by decide),
   (C7_blank_line_discipline "p".data [] 1 3).2.2 "x".data (by decide)⟩
